import Mathlib

/-!
Shallow embedding of the workflow execution engine in
src/workflow_runner.py (class WorkflowExecutor) together with the
minimal-graph caller shape of src/main.py.

Modelling conventions:
* Python dynamic values are the inductive type Dyn (string, int, float,
  bool, None, list, dict).  Python floats are modelled as exact rationals
  in canonical form (numerator, positive denominator, reduced); every
  arithmetic step used by the claims is exact in binary64 on the inputs
  exercised, so the rational model agrees with Python there.
* Python dicts are association lists with insert-or-replace-in-place
  semantics, which reproduces the insertion-order iteration of Python
  dicts (an updated key keeps its original position).
* Python functions that can raise are modelled as Except String; the
  string is the (model) exception text.  A raise inside
  WorkflowExecutor.run that Python would not catch surfaces as
  Except.error of the whole run.
* Context keys are strings.  Python additionally allows non-string
  hashable dict keys; writes through a non-string name are modelled as a
  ModelError exception and are excluded by the side conditions of every
  theorem below (no claim exercises them).
-/

/-- Canonical rational: numerator and positive reduced denominator.
Constructed only through ratNorm. -/
abbrev Q := Int × Int

/-- Normalise a fraction to canonical form (reduced, positive
denominator); a zero denominator is guarded to (0, 1) and never reached
by callers. -/
def ratNorm (n d : Int) : Q :=
  if d = 0 then (0, 1)
  else
    let s : Int := if d < 0 then -1 else 1
    let n1 := s * n
    let d1 := s * d
    let g : Int := Int.ofNat (Nat.gcd n1.natAbs d1.natAbs)
    if g = 0 then (0, 1) else (Int.tdiv n1 g, Int.tdiv d1 g)

def qOfInt (n : Int) : Q := (n, 1)

def qAdd (a b : Q) : Q := ratNorm (a.1 * b.2 + b.1 * a.2) (a.2 * b.2)

def qSub (a b : Q) : Q := ratNorm (a.1 * b.2 - b.1 * a.2) (a.2 * b.2)

def qMul (a b : Q) : Q := ratNorm (a.1 * b.1) (a.2 * b.2)

def qDiv (a b : Q) : Q := ratNorm (a.1 * b.2) (a.2 * b.1)

/-- Floor of a rational (denominators are positive by construction). -/
def qFloor (a : Q) : Int := Int.fdiv a.1 a.2

/-- Truncation toward zero, the behaviour of Python int() on a float. -/
def qTrunc (a : Q) : Int := Int.tdiv a.1 a.2

/-- Python float modulo: a - b * floor(a / b) (callers guard b = 0). -/
def qMod (a b : Q) : Q := qSub a (qMul b (qOfInt (Int.fdiv (a.1 * b.2) (a.2 * b.1))))

def qIsInt (a : Q) : Bool := a.2 = 1

def qEq (a b : Q) : Bool := a = b

def qLt (a b : Q) : Bool := a.1 * b.2 < b.1 * a.2

def qLe (a b : Q) : Bool := a.1 * b.2 ≤ b.1 * a.2

/-- Dynamic (JSON-like) Python value. -/
inductive Dyn where
  | str (s : String)
  | int (n : Int)
  | float (q : Q)
  | bool (b : Bool)
  | null
  | arr (l : List Dyn)
  | obj (m : List (String × Dyn))

/-- Association-list lookup, the model of Python dict access. -/
def getA : List (String × Dyn) → String → Option Dyn
  | [], _ => none
  | (k, v) :: rest, key => if k = key then some v else getA rest key

/-- Python dict .get with a default. -/
def getD (m : List (String × Dyn)) (key : String) (dflt : Dyn) : Dyn :=
  match getA m key with
  | some v => v
  | none => dflt

def containsA : List (String × Dyn) → String → Bool
  | [], _ => false
  | (k, _) :: rest, key => k = key || containsA rest key

/-- Python dict assignment: replace in place if the key exists (keeping
its position, as Python insertion order does), else append. -/
def insertA : List (String × Dyn) → String → Dyn → List (String × Dyn)
  | [], key, v => [(key, v)]
  | (k, w) :: rest, key, v =>
    if k = key then (k, v) :: rest else (k, w) :: insertA rest key v

/-- Python truthiness of a value. -/
def pyTruthy : Dyn → Bool
  | .str s => s ≠ ""
  | .int n => n ≠ 0
  | .float q => q.1 ≠ 0
  | .bool b => b
  | .null => false
  | .arr l => !l.isEmpty
  | .obj m => !m.isEmpty

/-- Decimal rendering of the fractional part of a rational, used only
inside log strings (up to 17 digits, mirroring repr of a float closely
enough for the claims, none of which inspect these digits). -/
def fracDigits : Nat → Int → Int → String
  | 0, _, _ => ""
  | _, 0, _ => ""
  | fuel + 1, r, d =>
    let r10 := r * 10
    let digit := Int.tdiv r10 d
    let rest := r10 - digit * d
    toString digit ++ fracDigits fuel rest d

/-- Python str of a float: integral values render with a ".0" suffix. -/
def qStr (a : Q) : String :=
  if a.2 = 1 then toString a.1 ++ ".0"
  else
    let sign := if a.1 < 0 then "-" else ""
    let n := a.1.natAbs
    let ip := Int.tdiv (Int.ofNat n) a.2
    sign ++ toString ip ++ "." ++ fracDigits 17 (Int.ofNat n - ip * a.2) a.2

mutual
/-- Python repr() rendering of a value (how containers render their
elements: strings quoted, numbers and keywords canonical). -/
def pyRepr : Dyn → String
  | .str s => "\x27" ++ s ++ "\x27"
  | .int n => toString n
  | .float q => qStr q
  | .bool b => if b then "True" else "False"
  | .null => "None"
  | .arr l => "[" ++ pyStrList l ++ "]"
  | .obj m => "\x7b" ++ pyStrObj m ++ "\x7d"
def pyStrList : List Dyn → String
  | [] => ""
  | [x] => pyRepr x
  | x :: y :: rest => pyRepr x ++ ", " ++ pyStrList (y :: rest)
def pyStrObj : List (String × Dyn) → String
  | [] => ""
  | [(k, v)] => "\x27" ++ k ++ "\x27: " ++ pyRepr v
  | (k, v) :: p :: rest => "\x27" ++ k ++ "\x27: " ++ pyRepr v ++ ", " ++ pyStrObj (p :: rest)
end

/-- Python str() of a value: like repr() except a top-level string
renders unquoted. -/
def pyStr : Dyn → String
  | .str s => s
  | v => pyRepr v

mutual
/-- Python == between dynamic values: numbers (int, float, bool) compare
numerically across kinds, containers compare structurally (dicts
order-insensitively; object keys are unique by construction here). -/
def pyEq : Dyn → Dyn → Bool
  | .str a, .str b => a = b
  | .int a, .int b => a = b
  | .int a, .float b => qEq (qOfInt a) b
  | .int a, .bool b => a = (if b then 1 else 0)
  | .float a, .int b => qEq a (qOfInt b)
  | .float a, .float b => qEq a b
  | .float a, .bool b => qEq a (qOfInt (if b then 1 else 0))
  | .bool a, .int b => (if a then (1 : Int) else 0) = b
  | .bool a, .float b => qEq (qOfInt (if a then 1 else 0)) b
  | .bool a, .bool b => a = b
  | .null, .null => true
  | .arr a, .arr b => pyEqList a b
  | .obj a, .obj b => a.length = b.length && pyEqObj a b
  | _, _ => false
def pyEqList : List Dyn → List Dyn → Bool
  | [], [] => true
  | a :: as_, b :: bs => pyEq a b && pyEqList as_ bs
  | _, _ => false
def pyEqObj : List (String × Dyn) → List (String × Dyn) → Bool
  | [], _ => true
  | (k, v) :: rest, b => (match getA b k with
      | some w => pyEq v w
      | none => false) && pyEqObj rest b
end

/-- Character-list prefix test (Python str.startswith). -/
def myStartsWith (s pat : String) : Bool := pat.data.isPrefixOf s.data

/-- Character-list suffix test (Python str.endswith). -/
def myEndsWith (s pat : String) : Bool := pat.data.isSuffixOf s.data

/-- Python str.count for a single character. -/
def countChar (s : String) (c : Char) : Nat := s.data.count c

def containsChar (s : String) (c : Char) : Bool := s.data.contains c

/-- Substring test, the model of the Python operator in on strings. -/
def containsSubAux : List Char → List Char → Bool
  | [], pat => pat.isEmpty
  | c :: rest, pat => pat.isPrefixOf (c :: rest) || containsSubAux rest pat

def containsSub (s pat : String) : Bool := containsSubAux s.data pat.data

/-- Replace every non-overlapping occurrence of a (nonempty) pattern,
left to right: Python str.replace.  Fuel is the source length. -/
def replaceAux : Nat → List Char → List Char → List Char → List Char
  | 0, s, _, _ => s
  | _ + 1, [], _, _ => []
  | fuel + 1, c :: rest, pat, rep =>
    if pat ≠ [] && pat.isPrefixOf (c :: rest) then
      rep ++ replaceAux fuel ((c :: rest).drop pat.length) pat rep
    else
      c :: replaceAux fuel rest pat rep

def pyReplace (s pat rep : String) : String :=
  String.mk (replaceAux s.data.length s.data pat.data rep.data)

/-- Python val[1:-1]. -/
def sliceInner (s : String) : String := String.mk ((s.data.drop 1).dropLast)

/-- Python str.strip("\x7b\x7d"): remove every leading and trailing
brace character. -/
def stripBraces (s : String) : String :=
  let isBrace : Char → Bool := fun c => c = '{' || c = '}'
  String.mk (((s.data.dropWhile isBrace).reverse.dropWhile isBrace).reverse)

def isDigit (c : Char) : Bool := '0' ≤ c && c ≤ '9'

def digitVal (c : Char) : Nat := c.toNat - '0'.toNat

def digitsVal : List Char → Nat
  | [] => 0
  | c :: rest => digitsVal rest + digitVal c * 10 ^ rest.length

/-- Model of Python float(string) on the numeral forms the engine meets:
optional sign, digits with an optional decimal point (at least one digit
overall), surrounding spaces allowed.  Exponents, inf, nan and
underscore separators are outside the model; no claim exercises them. -/
def parseFloat (s : String) : Option Q :=
  let cs := s.data.dropWhile (· = ' ')
  let cs := (cs.reverse.dropWhile (· = ' ')).reverse
  let (sign, cs) : Int × List Char :=
    match cs with
    | '-' :: rest => (-1, rest)
    | '+' :: rest => (1, rest)
    | rest => (1, rest)
  let ip := cs.takeWhile isDigit
  let rest := cs.drop ip.length
  match rest with
  | [] => if ip.isEmpty then none else some (ratNorm (sign * Int.ofNat (digitsVal ip)) 1)
  | '.' :: fp =>
    if fp.all isDigit && !(ip.isEmpty && fp.isEmpty) then
      some (ratNorm (sign * Int.ofNat (digitsVal (ip ++ fp))) (Int.ofNat (10 ^ fp.length)))
    else none
  | _ => none

/-- Python float() coercion from a dynamic value (bool is numeric;
strings parse as numerals; everything else raises). -/
def toNum : Dyn → Option Q
  | .int n => some (qOfInt n)
  | .float q => some q
  | .bool b => some (qOfInt (if b then 1 else 0))
  | .str s => parseFloat s
  | _ => none

/-- Python str(value)[:n], the truncation used in log lines. -/
def strTrunc (s : String) (n : Nat) : String := String.mk (s.data.take n)

/-- Python str.strip() (only spaces occur in the strings the engine
builds). -/
def pyStrip (s : String) : String :=
  String.mk (((s.data.dropWhile (· = ' ')).reverse.dropWhile (· = ' ')).reverse)

/-- Python str.split(sep) for a single-character separator. -/
def splitAux (sep : Char) : List Char → List Char → List String
  | [], acc => [String.mk acc.reverse]
  | c :: rest, acc =>
    if c = sep then String.mk acc.reverse :: splitAux sep rest []
    else splitAux sep rest (c :: acc)

def pySplit (s : String) (sep : Char) : List String := splitAux sep s.data []

/-- Python ", ".join(items). -/
def joinComma : List String → String
  | [] => ""
  | [x] => x
  | x :: y :: rest => x ++ ", " ++ joinComma (y :: rest)

/-- Python type(x) rendering used in one loop-node log line. -/
def typeNameD : Dyn → String
  | .str _ => "<class \x27str\x27>"
  | .int _ => "<class \x27int\x27>"
  | .float _ => "<class \x27float\x27>"
  | .bool _ => "<class \x27bool\x27>"
  | .null => "<class \x27NoneType\x27>"
  | .arr _ => "<class \x27list\x27>"
  | .obj _ => "<class \x27dict\x27>"

/-- JSON string literal body: content up to the closing quote, with the
common escapes (unicode escapes are outside the model; no claim uses
them). -/
def jStrAux : Nat → List Char → Option (List Char × List Char)
  | 0, _ => none
  | fuel + 1, cs =>
    match cs with
    | [] => none
    | '"' :: rest => some ([], rest)
    | '\\' :: e :: rest =>
      (match (match e with
              | '"' => some '"'
              | '\\' => some '\\'
              | '/' => some '/'
              | 'n' => some '\n'
              | 't' => some '\t'
              | 'r' => some '\r'
              | _ => none) with
       | some c =>
         match jStrAux fuel rest with
         | some (content, r) => some (c :: content, r)
         | none => none
       | none => none)
    | c :: rest =>
      match jStrAux fuel rest with
      | some (content, r) => some (c :: content, r)
      | none => none

def skipWs (cs : List Char) : List Char :=
  cs.dropWhile (fun c => c = ' ' || c = '\n' || c = '\t' || c = '\r')

/-- JSON number: optional minus, digits, optional fraction.  Integral
literals load as Python ints, fractional ones as floats (exponents are
outside the model; no claim uses them). -/
def jNum (cs : List Char) : Option (Dyn × List Char) :=
  let (sign, cs1) : Int × List Char :=
    match cs with
    | '-' :: rest => (-1, rest)
    | rest => (1, rest)
  let ip := cs1.takeWhile isDigit
  if ip.isEmpty then none
  else
    let rest := cs1.drop ip.length
    match rest with
    | '.' :: fp0 =>
      let fp := fp0.takeWhile isDigit
      if fp.isEmpty then none
      else
        some (.float (ratNorm (sign * Int.ofNat (digitsVal (ip ++ fp)))
                (Int.ofNat (10 ^ fp.length))), fp0.drop fp.length)
    | _ => some (.int (sign * Int.ofNat (digitsVal ip)), rest)

mutual
/-- One JSON value, fuel-indexed recursive-descent. -/
def jVal : Nat → List Char → Option (Dyn × List Char)
  | 0, _ => none
  | fuel + 1, cs =>
    match skipWs cs with
    | 'n' :: 'u' :: 'l' :: 'l' :: rest => some (.null, rest)
    | 't' :: 'r' :: 'u' :: 'e' :: rest => some (.bool true, rest)
    | 'f' :: 'a' :: 'l' :: 's' :: 'e' :: rest => some (.bool false, rest)
    | '"' :: rest =>
      (match jStrAux fuel rest with
       | some (content, r) => some (.str (String.mk content), r)
       | none => none)
    | '[' :: rest =>
      (match skipWs rest with
       | ']' :: r => some (.arr [], r)
       | r2 =>
         match jArrItems fuel r2 with
         | some (items, r) => some (.arr items, r)
         | none => none)
    | '{' :: rest =>
      (match skipWs rest with
       | '}' :: r => some (.obj [], r)
       | r2 =>
         match jObjItems fuel r2 with
         | some (items, r) => some (.obj items, r)
         | none => none)
    | cs2 => jNum cs2
def jArrItems : Nat → List Char → Option (List Dyn × List Char)
  | 0, _ => none
  | fuel + 1, cs =>
    match jVal fuel cs with
    | some (v, rest) =>
      (match skipWs rest with
       | ',' :: r2 =>
         (match jArrItems fuel (skipWs r2) with
          | some (items, r) => some (v :: items, r)
          | none => none)
       | ']' :: r2 => some ([v], r2)
       | _ => none)
    | none => none
def jObjItems : Nat → List Char → Option (List (String × Dyn) × List Char)
  | 0, _ => none
  | fuel + 1, cs =>
    match skipWs cs with
    | '"' :: rest =>
      (match jStrAux fuel rest with
       | some (key, r1) =>
         (match skipWs r1 with
          | ':' :: r2 =>
            (match jVal fuel r2 with
             | some (v, r3) =>
               (match skipWs r3 with
                | ',' :: r4 =>
                  (match jObjItems fuel r4 with
                   | some (items, r) => some ((String.mk key, v) :: items, r)
                   | none => none)
                | '}' :: r4 => some ([(String.mk key, v)], r4)
                | _ => none)
             | none => none)
          | _ => none)
       | none => none)
    | _ => none
end

/-- Model of Python json.loads: parse one value and require only
whitespace after it. -/
def jsonLoads (s : String) : Except String Dyn :=
  match jVal (s.data.length + 1) s.data with
  | some (v, rest) =>
    if (skipWs rest).isEmpty then .ok v
    else .error "JSONDecodeError: Extra data"
  | none => .error "JSONDecodeError: Expecting value"

mutual
/-- Model of Python json.dumps with default separators.  String escaping
is not modelled; no claim serialises a string needing escapes. -/
def jsonDumps : Dyn → String
  | .str s => "\"" ++ s ++ "\""
  | .int n => toString n
  | .float q => qStr q
  | .bool b => if b then "true" else "false"
  | .null => "null"
  | .arr l => "[" ++ jsonDumpsList l ++ "]"
  | .obj m => "\x7b" ++ jsonDumpsObj m ++ "\x7d"
def jsonDumpsList : List Dyn → String
  | [] => ""
  | [x] => jsonDumps x
  | x :: y :: rest => jsonDumps x ++ ", " ++ jsonDumpsList (y :: rest)
def jsonDumpsObj : List (String × Dyn) → String
  | [] => ""
  | [(k, v)] => "\"" ++ k ++ "\": " ++ jsonDumps v
  | (k, v) :: p :: rest => "\"" ++ k ++ "\": " ++ jsonDumps v ++ ", " ++ jsonDumpsObj (p :: rest)
end

/-- Token of the restricted condition grammar. -/
inductive Tok where
  | ident (s : String)
  | num (v : Dyn)
  | oper (s : String)

def isIdentStart (c : Char) : Bool :=
  ('a' ≤ c && c ≤ 'z') || ('A' ≤ c && c ≤ 'Z') || c = '_'

def isIdentChar (c : Char) : Bool := isIdentStart c || isDigit c

/-- Tokeniser for logic-node conditions: identifiers, integer and
decimal literals, comparison operators.  Anything else fails, which the
evaluator reports as a SyntaxError. -/
def tokenize : Nat → List Char → Option (List Tok)
  | 0, _ => none
  | _ + 1, [] => some []
  | fuel + 1, c :: rest =>
    if c = ' ' then tokenize fuel rest
    else if isIdentStart c then
      let tl := rest.takeWhile isIdentChar
      (match tokenize fuel (rest.drop tl.length) with
       | some ts => some (.ident (String.mk (c :: tl)) :: ts)
       | none => none)
    else if isDigit c then
      let ip := rest.takeWhile isDigit
      let rest2 := rest.drop ip.length
      (match rest2 with
       | '.' :: fp0 =>
         let fp := fp0.takeWhile isDigit
         (match tokenize fuel (fp0.drop fp.length) with
          | some ts => some (.num (.float (ratNorm
              (Int.ofNat (digitsVal (c :: ip ++ fp))) (Int.ofNat (10 ^ fp.length)))) :: ts)
          | none => none)
       | _ =>
         match tokenize fuel rest2 with
         | some ts => some (.num (.int (Int.ofNat (digitsVal (c :: ip)))) :: ts)
         | none => none)
    else if c = '=' || c = '!' || c = '<' || c = '>' then
      match rest with
      | '=' :: rest2 =>
        (match tokenize fuel rest2 with
         | some ts => some (.oper (String.mk [c, '=']) :: ts)
         | none => none)
      | _ =>
        if c = '<' || c = '>' then
          match tokenize fuel rest with
          | some ts => some (.oper (String.mk [c]) :: ts)
          | none => none
        else none
    else none

/-- Lexicographic comparison of strings by code point (Python str <). -/
def charListLt : List Char → List Char → Bool
  | [], [] => false
  | [], _ :: _ => true
  | _ :: _, [] => false
  | a :: as_, b :: bs => if a < b then true else if b < a then false else charListLt as_ bs

/-- Python ordering comparison for the value kinds the evaluator meets:
numbers compare numerically (bool counts as a number), strings
lexicographically; mixing kinds raises a TypeError. -/
def pyCompare (o : String) (a b : Dyn) : Except String Dyn :=
  if o = "==" then .ok (.bool (pyEq a b))
  else if o = "!=" then .ok (.bool (!pyEq a b))
  else
    match toNum a, toNum b with
    | some qa, some qb =>
      (match a, b with
       | .str _, _ => .error "TypeError: mixed comparison"
       | _, .str _ => .error "TypeError: mixed comparison"
       | _, _ =>
         if o = "<" then .ok (.bool (qLt qa qb))
         else if o = "<=" then .ok (.bool (qLe qa qb))
         else if o = ">" then .ok (.bool (qLt qb qa))
         else if o = ">=" then .ok (.bool (qLe qb qa))
         else .error "SyntaxError: invalid syntax")
    | _, _ =>
      match a, b with
      | .str x, .str y =>
        if o = "<" then .ok (.bool (charListLt x.data y.data))
        else if o = "<=" then .ok (.bool (charListLt x.data y.data || x = y))
        else if o = ">" then .ok (.bool (charListLt y.data x.data))
        else if o = ">=" then .ok (.bool (charListLt y.data x.data || x = y))
        else .error "SyntaxError: invalid syntax"
      | _, _ => .error "TypeError: comparison not supported between these operands"

/-- Atom of a condition: keyword constant, numeric literal, or a context
name (an unknown name is a NameError, exactly what eval raises when the
context mapping lacks the identifier). -/
def evalAtom (ctx : List (String × Dyn)) : Tok → Except String Dyn
  | .num v => .ok v
  | .oper _ => .error "SyntaxError: invalid syntax"
  | .ident s =>
    if s = "True" then .ok (.bool true)
    else if s = "False" then .ok (.bool false)
    else if s = "None" then .ok .null
    else
      match getA ctx s with
      | some v => .ok v
      | none => .error ("NameError: name \x27" ++ s ++ "\x27 is not defined")

/-- Modelled from the Python builtin eval as the logic node uses it:
eval(condition, empty builtins, context) restricted to the grammar of a
single atom or one binary comparison.  Conditions outside this grammar
evaluate to a SyntaxError; unknown names to a NameError; ill-typed
orderings to a TypeError — in every case an Except.error, which the
logic node catches. -/
def pyEval (condition : String) (ctx : List (String × Dyn)) : Except String Dyn :=
  match tokenize (condition.data.length + 1) condition.data with
  | none => .error "SyntaxError: invalid syntax"
  | some toks =>
    match toks with
    | [a] => evalAtom ctx a
    | [a, .oper o, b] =>
      (match evalAtom ctx a with
       | .ok va =>
         (match evalAtom ctx b with
          | .ok vb => pyCompare o va vb
          | .error e => .error e)
       | .error e => .error e)
    | _ => .error "SyntaxError: invalid syntax"

/-- Workflow node: id, type and the data mapping (src/workflow_runner.py
reads nodes as dicts with these fields; data defaults to an empty
mapping via node.get). -/
structure Node where
  id : String
  type : String
  data : List (String × Dyn)

/-- Workflow edge: source, target and the optional sourceHandle routing
label. -/
structure Edge where
  source : String
  target : String
  sourceHandle : Option String

/-- Graph definition as passed to WorkflowExecutor.__init__. -/
structure Workflow where
  nodes : List Node
  edges : List Edge

/-- Mutable per-run executor state: self.context and self.execution_log. -/
structure St where
  context : List (String × Dyn)
  log : List String

/-- Typed outcome of one node execution (the res dicts of execute_node;
Outcome.none models a Python None return). -/
inductive Outcome where
  | none
  | logic (result : Bool)
  | loop (result : String)
  | response (d : Dyn)

/-- Interpolation pass of _resolve_val (lines 154-158): for every
context entry whose brace placeholder occurs in the string, replace all
its occurrences by the str() rendering; iteration order is context
insertion order and replacements feed later entries. -/
def interpolate : List (String × Dyn) → String → String
  | [], s => s
  | (k, v) :: rest, s =>
    let placeholder := "\x7b" ++ k ++ "\x7d"
    let s2 := if containsSub s placeholder then pyReplace s placeholder (pyStr v) else s
    interpolate rest s2

/-- WorkflowExecutor._resolve_val (lines 143-160): non-strings pass
through; an exact single-reference string (starts with a brace, ends
with a brace, exactly one opening brace) is looked up type-preservingly
with the literal string as default; otherwise a string containing both
brace characters is interpolated; other strings pass through. -/
def resolve_val (ctx : List (String × Dyn)) : Dyn → Dyn
  | .str s =>
    if myStartsWith s "\x7b" && myEndsWith s "\x7d" && countChar s '{' == 1 then
      getD ctx (sliceInner s) (.str s)
    else if containsChar s '{' && containsChar s '}' then
      .str (interpolate ctx s)
    else .str s
  | v => v

/-- Python membership test value-in-container as the interface node uses
it on the body (dict: key membership; list: element equality; string:
substring; other values raise TypeError). -/
def pyContains (container : Dyn) (name : String) : Except String Bool :=
  match container with
  | .obj m => .ok (containsA m name)
  | .arr l => .ok (l.any (fun x => pyEq x (.str name)))
  | .str s => .ok (containsSub s name)
  | _ => .error "TypeError: argument is not iterable"

/-- Python subscription container[name] with a string index (dicts only;
a string or list body makes the interface node raise a TypeError). -/
def pyIndex (container : Dyn) (name : String) : Except String Dyn :=
  match container with
  | .obj m =>
    (match getA m name with
     | some v => .ok v
     | none => .error ("KeyError: \x27" ++ name ++ "\x27"))
  | _ => .error "TypeError: indices must be integers"

/-- Python list indexing with the sign convention of collection[idx]
(negative indices count from the end; out of range raises). -/
def pyListGet (l : List Dyn) (idx : Int) : Except String Dyn :=
  if h : 0 ≤ idx ∧ idx.toNat < l.length then .ok (l.get ⟨idx.toNat, h.2⟩)
  else if h2 : idx < 0 ∧ (idx + (l.length : Int)).toNat < l.length ∧ 0 ≤ idx + (l.length : Int) then
    .ok (l.get ⟨(idx + (l.length : Int)).toNat, h2.2.1⟩)
  else .error "IndexError: list index out of range"

def sumQ (l : List Q) : Q := l.foldl qAdd (0, 1)

def minQ (a : Q) (l : List Q) : Q := l.foldl (fun x y => if qLt y x then y else x) a

def maxQ (a : Q) (l : List Q) : Q := l.foldl (fun x y => if qLt x y then y else x) a

/-- Dotted-path walk of the loop node (lines 371-380): start from the
body context entry, descend through dict fields (a missing field yields
None), and degrade to an empty list the moment a non-dict is entered. -/
def walkPath : List String → Dyn → Dyn
  | [], curr => curr
  | part :: rest, curr =>
    match curr with
    | .obj m =>
      walkPath rest (match getA m part with
                     | some v => v
                     | none => .null)
    | _ => .arr []

/-- Field validation loop of the interface node (lines 311-337),
accumulating the missing and invalid lists.  isinstance(val, (int,
float)) is true for Python booleans (bool is a subclass of int), so a
boolean value passes the number check; that behaviour is preserved
faithfully here. -/
def checkFields (body : Dyn) :
    List Dyn → List String → List String → Except String (List String × List String)
  | [], missing, invalid => .ok (missing, invalid)
  | f :: rest, missing, invalid =>
    match f with
    | .obj fm =>
      let name := getD fm "name" .null
      if !pyTruthy name then checkFields body rest missing invalid
      else
        match name with
        | .str n =>
          (match pyContains body n with
           | .error e => .error e
           | .ok mem =>
             let required := pyTruthy (getD fm "required" (.bool false))
             if required && !mem then checkFields body rest (missing ++ [n]) invalid
             else if mem then
               match pyIndex body n with
               | .error e => .error e
               | .ok val =>
                 let f_type := getD fm "type" (.str "string")
                 let isStrV : Bool := match val with | .str _ => true | _ => false
                 let isNumV : Bool := match val with
                   | .int _ => true | .float _ => true | .bool _ => true | _ => false
                 let isBoolV : Bool := match val with | .bool _ => true | _ => false
                 let isObjV : Bool := match val with | .obj _ => true | _ => false
                 let isArrV : Bool := match val with | .arr _ => true | _ => false
                 let invalid2 :=
                   if pyEq f_type (.str "string") && !isStrV then
                     invalid ++ [n ++ " (expected string)"]
                   else if pyEq f_type (.str "number") && !isNumV then
                     invalid ++ [n ++ " (expected number)"]
                   else if pyEq f_type (.str "boolean") && !isBoolV then
                     invalid ++ [n ++ " (expected boolean)"]
                   else if pyEq f_type (.str "object") && !isObjV then
                     invalid ++ [n ++ " (expected object)"]
                   else if pyEq f_type (.str "array") && !isArrV then
                     invalid ++ [n ++ " (expected array)"]
                   else invalid
                 checkFields body rest missing invalid2
             else checkFields body rest missing invalid)
        | _ => .error "ModelError: non-string field name"
    | _ => .error "AttributeError: object has no attribute get"

/-- Raw-text substitution pass of the response node (lines 467-480):
for every context entry whose placeholder occurs, numbers insert their
str(), booleans insert lowercase true or false, dicts and lists insert
json.dumps, anything else (strings, None) inserts str(). -/
def substAll : List (String × Dyn) → String → String
  | [], s => s
  | (k, v) :: rest, s =>
    let placeholder := "\x7b" ++ k ++ "\x7d"
    let s2 :=
      if containsSub s placeholder then
        match v with
        | .int n => pyReplace s placeholder (toString n)
        | .float q => pyReplace s placeholder (qStr q)
        | .bool b => pyReplace s placeholder (if b then "true" else "false")
        | .obj m => pyReplace s placeholder (jsonDumps (.obj m))
        | .arr l => pyReplace s placeholder (jsonDumps (.arr l))
        | w => pyReplace s placeholder (pyStr w)
      else s
    substAll rest s2

/-- Stateful tail of the loop node (lines 391-414): setdefault the
reserved loop-state mapping, read this node entry, and either bind the
current element, persist the incremented index and report do, or reset
the index to 0 and report done.  The Python state dict is mutated
through an alias into the context; the alias is written back explicitly
here, except when the item binding itself overwrote the reserved key
(in which case the Python mutation lands in an orphaned dict and the
context keeps the bound item). -/
def loopStatePart (node_id : String) (item_var : Dyn) (coll : List Dyn)
    (ctx : List (String × Dyn)) (log1 : List String) : Except String Outcome × St :=
  match getD ctx "_loop_states" (.obj []) with
  | .obj lsm =>
    let ctx0 := if containsA ctx "_loop_states" then ctx
                else insertA ctx "_loop_states" (.obj [])
    let stateV := getA lsm node_id
    let idxE : Except String Int :=
      match stateV with
      | Option.none => .ok 0
      | some (.obj sm) =>
        (match getA sm "index" with
         | some (.int i) => .ok i
         | some _ => .error "TypeError: order comparison on non-integer index"
         | Option.none => .error "KeyError: \x27index\x27")
      | some _ => .error "TypeError: loop state is not a dict"
    (match idxE with
     | .error e => (.error e, ⟨ctx0, log1⟩)
     | .ok idx =>
       if idx < (coll.length : Int) then
         match pyListGet coll idx with
         | .error e => (.error e, ⟨ctx0, log1⟩)
         | .ok item =>
           let bindRes : Except String (List (String × Dyn)) :=
             if pyTruthy item_var then
               match item_var with
               | .str v => .ok (insertA ctx0 v item)
               | _ => .error "ModelError: non-string loop variable"
             else .ok ctx0
           (match bindRes with
            | .error e => (.error e, ⟨ctx0, log1⟩)
            | .ok ctx1 =>
              let newState : List (String × Dyn) :=
                match stateV with
                | some (.obj sm) => insertA sm "index" (.int (idx + 1))
                | _ => [("index", .int (idx + 1))]
              let overwrote : Bool :=
                pyTruthy item_var && (match item_var with
                                      | .str v => v = "_loop_states"
                                      | _ => false)
              let ctx2 := if overwrote then ctx1
                          else insertA ctx1 "_loop_states" (.obj (insertA lsm node_id (.obj newState)))
              (.ok (.loop "do"),
               ⟨ctx2, log1 ++ ["Loop " ++ node_id ++ ": Item " ++ toString idx ++ " = "
                  ++ strTrunc (pyStr item) 20]⟩))
       else
         let newState : List (String × Dyn) :=
           match stateV with
           | some (.obj sm) => insertA sm "index" (.int 0)
           | _ => [("index", .int 0)]
         (.ok (.loop "done"),
          ⟨insertA ctx0 "_loop_states" (.obj (insertA lsm node_id (.obj newState))),
           log1 ++ ["Loop " ++ node_id ++ ": Done"]⟩))
  | _ => (.error "AttributeError: object has no attribute get", ⟨ctx, log1⟩)

/-- WorkflowExecutor.execute_node (lines 162-487), one branch per node
type, returning the outcome (or the uncaught exception Python would
raise) together with the state as mutated up to that point. -/
def execute_node (node : Node) (st : St) : Except String Outcome × St :=
  let data := node.data
  if node.type = "api" then (.ok .none, st)
  else if node.type = "variable" then
    let var_name := getD data "name" .null
    let var_value0 := getD data "value" .null
    let var_type := getD data "type" (.str "string")
    if pyTruthy var_name then
      match var_name with
      | .str name =>
        let v1 : Dyn :=
          match var_value0 with
          | .str s =>
            if myStartsWith s "\x7b" && myEndsWith s "\x7d" && countChar s '{' == 1 then
              (match getA st.context (sliceInner s) with
               | some w => w
               | none => .str s)
            else .str (interpolate st.context s)
          | v => v
        let v2 : Dyn :=
          if pyEq var_type (.str "json") || pyEq var_type (.str "array") then
            match v1 with
            | .str s =>
              (match jsonLoads s with
               | .ok w => w
               | .error _ => .str s)
            | w => w
          else v1
        (.ok .none,
         ⟨insertA st.context name v2,
          st.log ++ ["Set Variable \x27" ++ name ++ "\x27 = " ++ strTrunc (pyStr v2) 50 ++ "..."]⟩)
      | _ => (.error "ModelError: non-string variable name", st)
    else (.ok .none, st)
  else if node.type = "logic" then
    match getD data "condition" (.str "False") with
    | .str rawc =>
      let condition := pyReplace (pyReplace rawc "===" "==") "!==" "!="
      (match pyEval condition st.context with
       | .ok result =>
         (.ok (.logic (pyTruthy result)),
          ⟨st.context,
           st.log ++ ["Logic: \x27" ++ rawc ++ "\x27 -> " ++ pyStr (.bool (pyTruthy result))]⟩)
       | .error e =>
         (.ok (.logic false), ⟨st.context, st.log ++ ["Logic Error: " ++ e]⟩))
    | _ => (.error "AttributeError: object has no attribute replace", st)
  else if node.type = "math" then
    let val_a := resolve_val st.context (getD data "valA" .null)
    let val_b := resolve_val st.context (getD data "valB" .null)
    let op := getD data "op" (.str "+")
    match getD data "resultVar" (.str "result") with
    | .str result_var =>
      (match toNum val_a, toNum val_b with
       | some num_a, some num_b =>
         if pyEq op (.str "%") && qEq num_b (qOfInt 0) then
           (.ok .none,
            ⟨st.context,
             st.log ++ ["Math Error: Could not process " ++ pyStr val_a ++ " " ++ pyStr op
               ++ " " ++ pyStr val_b]⟩)
         else
           let res : Dyn :=
             if pyEq op (.str "+") then .float (qAdd num_a num_b)
             else if pyEq op (.str "-") then .float (qSub num_a num_b)
             else if pyEq op (.str "*") then .float (qMul num_a num_b)
             else if pyEq op (.str "/") then
               (if qEq num_b (qOfInt 0) then .int 0 else .float (qDiv num_a num_b))
             else if pyEq op (.str "%") then .float (qMod num_a num_b)
             else .int 0
           let res2 : Dyn :=
             if qIsInt num_a && qIsInt num_b then
               match res with
               | .float q => .int (qTrunc q)
               | r => r
             else res
           (.ok .none,
            ⟨insertA st.context result_var res2,
             st.log ++ ["Math: " ++ qStr num_a ++ " " ++ pyStr op ++ " " ++ qStr num_b
               ++ " = " ++ pyStr res2]⟩)
       | _, _ =>
         if pyEq op (.str "+") then
           let res := pyStr val_a ++ pyStr val_b
           (.ok .none,
            ⟨insertA st.context result_var (.str res),
             st.log ++ ["Math (Str): " ++ pyStr val_a ++ " + " ++ pyStr val_b ++ " = " ++ res]⟩)
         else
           (.ok .none,
            ⟨st.context,
             st.log ++ ["Math Error: Could not process " ++ pyStr val_a ++ " " ++ pyStr op
               ++ " " ++ pyStr val_b]⟩))
    | _ => (.error "ModelError: non-string resultVar", st)
  else if node.type = "data_op" then
    let collection_source := getD data "collection" (.str "")
    let op := getD data "op" (.str "sum")
    match getD data "resultVar" (.str "summary") with
    | .str result_var =>
      let c1 := resolve_val st.context collection_source
      let c2 : Dyn :=
        match c1 with
        | .str s =>
          if containsA st.context s then getD st.context s .null
          else if s = "body" then getD st.context "body" (.arr [])
          else .str s
        | v => v
      let cl : List Dyn × List String :=
        match c2 with
        | .arr l => (l, st.log)
        | v => ([], st.log ++ ["DataNode Error: Input is not a list. Value: "
                  ++ strTrunc (pyStr v) 20])
      let coll := cl.1
      let nums := coll.filterMap toNum
      let res : Dyn :=
        if pyEq op (.str "count") then .int coll.length
        else if pyEq op (.str "sum") then
          (match nums with
           | [] => .int 0
           | _ => .float (sumQ nums))
        else if pyEq op (.str "avg") then
          (match nums with
           | [] => .int 0
           | _ => .float (qDiv (sumQ nums) (qOfInt (Int.ofNat nums.length))))
        else if pyEq op (.str "min") then
          (match nums with
           | [] => .int 0
           | n :: rest => .float (minQ n rest))
        else if pyEq op (.str "max") then
          (match nums with
           | [] => .int 0
           | n :: rest => .float (maxQ n rest))
        else .int 0
      let res2 : Dyn :=
        match res with
        | .float q => if qIsInt q then .int q.1 else .float q
        | r => r
      (.ok .none,
       ⟨insertA st.context result_var res2,
        cl.2 ++ ["Data Op: " ++ pyStr op ++ "(len=" ++ toString coll.length ++ ") = "
          ++ pyStr res2]⟩)
    | _ => (.error "ModelError: non-string resultVar", st)
  else if node.type = "interface" then
    let fields := getD data "fields" (.arr [])
    let body := getD st.context "body" (.obj [])
    let run : Except String (List String × List String) :=
      match fields with
      | .arr l => checkFields body l [] []
      | .str s => if s = "" then .ok ([], []) else .error "AttributeError: object has no attribute get"
      | .obj m => if m.isEmpty then .ok ([], []) else .error "AttributeError: object has no attribute get"
      | _ => .error "TypeError: object is not iterable"
    match run with
    | .error e => (.error e, st)
    | .ok (missing, invalid) =>
      if !missing.isEmpty || !invalid.isEmpty then
        let error_msg := "Validation Error: "
          ++ (if !missing.isEmpty then "Missing fields: " ++ joinComma missing ++ ". " else "")
          ++ (if !invalid.isEmpty then "Invalid types: " ++ joinComma invalid ++ "." else "")
        (.ok (.response (.obj
           [("error", .str "Bad Request"),
            ("message", .str (pyStrip error_msg)),
            ("details", .obj
              [("missing", .arr (missing.map .str)),
               ("invalid", .arr (invalid.map .str))])])),
         ⟨st.context, st.log ++ ["Interface Validation Failed: " ++ error_msg]⟩)
      else
        (.ok .none, ⟨st.context, st.log ++ ["Interface Validation Passed"]⟩)
  else if node.type = "loop" then
    let collection_source := getD data "collection" (.str "")
    let item_var := getD data "variable" (.str "item")
    let c1 := resolve_val st.context collection_source
    let c2 : Dyn :=
      match c1 with
      | .str s =>
        if myStartsWith s "body." then
          walkPath (pySplit s '.').tail (getD st.context "body" (.obj []))
        else if s = "body" then getD st.context "body" (.arr [])
        else if containsA st.context s then getD st.context s .null
        else .str s
      | v => v
    let cl : List Dyn × List String :=
      match c2 with
      | .arr l => (l, st.log)
      | v => ([], st.log ++ ["Loop Error: Collection \x27" ++ pyStr collection_source
                ++ "\x27 resolved to " ++ typeNameD v ++ ", expected list. Defaulting to empty."])
    loopStatePart node.id item_var cl.1 st.context cl.2
  else if node.type = "function" then
    let func_name := getD data "name" (.str "func")
    (.ok .none, ⟨st.context, st.log ++ ["Ran function " ++ pyStr func_name]⟩)
  else if node.type = "response" then
    let resp_type := getD data "responseType" (.str "json")
    let body_def := getD data "body" (.str "\x7b\x7d")
    if pyEq resp_type (.str "variable") then
      match body_def with
      | .arr _ => (.error "TypeError: unhashable type", st)
      | .obj _ => (.error "TypeError: unhashable type", st)
      | _ =>
        let val0 : Dyn :=
          match body_def with
          | .str s => getD st.context s .null
          | _ => .null
        let val : Dyn :=
          if !pyTruthy val0 then
            match body_def with
            | .str s =>
              if myStartsWith s "\x7b" && myEndsWith s "\x7d" then
                getD st.context (stripBraces s) .null
              else val0
            | _ => val0
          else val0
        (.ok (.response val), st)
    else
      match body_def with
      | .str bodyStr =>
        let final_body := substAll st.context bodyStr
        (match jsonLoads final_body with
         | .ok payload => (.ok (.response payload), st)
         | .error e =>
           (.ok (.response (.obj [("raw", .str bodyStr), ("error", .str "JSON parse error")])),
            ⟨st.context, st.log ++ ["Error parsing response body: " ++ e]⟩))
      | v =>
        (.ok (.response (.obj [("raw", v), ("error", .str "JSON parse error")])),
         ⟨st.context, st.log ++ ["Error parsing response body: TypeError"]⟩)
  else (.ok .none, st)

/-- Dict insertion for the node index (same replace-in-place semantics
as insertA). -/
def insertNodeA : List (String × Node) → String → Node → List (String × Node)
  | [], key, v => [(key, v)]
  | (k, w) :: r, key, v =>
    if k = key then (k, v) :: r else (k, w) :: insertNodeA r key v

/-- Node index of WorkflowExecutor.__init__ (line 6): a dict keyed by
node id, later duplicates replacing earlier entries in place. -/
def nodesMapAux : List Node → List (String × Node) → List (String × Node)
  | [], acc => acc
  | n :: rest, acc => nodesMapAux rest (insertNodeA acc n.id n)

def nodesMap (w : Workflow) : List (String × Node) := nodesMapAux w.nodes []

def getNode : List (String × Node) → String → Option Node
  | [], _ => none
  | (k, v) :: rest, key => if k = key then some v else getNode rest key

/-- Append an edge under its source key, creating the entry on first
sight (lines 15-17). -/
def addEdge : List (String × List (String × Option String)) → String →
    (String × Option String) → List (String × List (String × Option String))
  | [], key, ed => [(key, [ed])]
  | (k, l) :: r, key, ed =>
    if k = key then (k, l ++ [ed]) :: r else (k, l) :: addEdge r key ed

/-- Adjacency index of __init__ (lines 9-17): source id to the ordered
list of (target, handle) pairs. -/
def adjacencyAux : List Edge → List (String × List (String × Option String)) →
    List (String × List (String × Option String))
  | [], acc => acc
  | e :: rest, acc => adjacencyAux rest (addEdge acc e.source (e.target, e.sourceHandle))

def adjacency (w : Workflow) : List (String × List (String × Option String)) :=
  adjacencyAux w.edges []

def getAdj : List (String × List (String × Option String)) → String →
    Option (List (String × Option String))
  | [], _ => none
  | (k, v) :: rest, key => if k = key then some v else getAdj rest key

/-- Freshly constructed executor state: __init__ lines 19-20 allocate a
new empty context and execution log for every WorkflowExecutor, and
src/main.py constructs a new executor for every request, so every run
starts from this state. -/
def freshState : St := ⟨[], []⟩

/-- Variable-node initialisation pass of run (lines 27-29): execute
every variable-type node in node-index order before anything else. -/
def initVars : List (String × Node) → St → Except String Unit × St
  | [], st => (.ok (), st)
  | (_, n) :: rest, st =>
    if n.type = "variable" then
      match execute_node n st with
      | (.error e, st2) => (.error e, st2)
      | (.ok _, st2) => initVars rest st2
    else initVars rest st

/-- Entry-point search of run (lines 32-36): the first api-type node in
node-index order. -/
def findStart : List (String × Node) → Option Node
  | [] => none
  | (_, n) :: rest => if n.type = "api" then some n else findStart rest

/-- Routing of one executed node (lines 111-131): logic nodes follow the
handle matching their boolean outcome, loop nodes the handle matching
do or done, every other type follows all outgoing edges. -/
def routeEdges (node_type : String) (out : Outcome)
    (edges : List (String × Option String)) : List String :=
  edges.filterMap (fun ed =>
    if node_type = "logic" then
      match out with
      | .logic true => if ed.2 = some "true" then some ed.1 else none
      | .logic false => if ed.2 = some "false" then some ed.1 else none
      | _ => none
    else if node_type = "loop" then
      match out with
      | .loop r =>
        if r = "do" && ed.2 = some "do" then some ed.1
        else if r = "done" && ed.2 = some "done" then some ed.1
        else none
      | _ => none
    else some ed.1)

/-- Result of processing one wave: continue with the next layer, return
a result dict, or propagate an uncaught exception. -/
inductive WRes where
  | cont (next : List String)
  | ret (r : List (String × Dyn))
  | exc (e : String)

/-- Wave-processing loop body of run (lines 71-131).  A response outcome
returns the success dict immediately (status, response, logs and — as
the code does — the context); a caught node failure returns the error
dict; a node id absent from the node index raises an uncaught KeyError
(line 80 sits before the try block). -/
def runWave (nm : List (String × Node)) (adj : List (String × List (String × Option String))) :
    List String → List String → St → WRes × St
  | [], next, st => (.cont next, st)
  | node_id :: rest, next, st =>
    match getNode nm node_id with
    | none => (.exc ("KeyError: \x27" ++ node_id ++ "\x27"), st)
    | some node =>
      let st1 : St := ⟨st.context, st.log ++ ["Executing Node: " ++ node.type ++ " (" ++ node_id ++ ")"]⟩
      match execute_node node st1 with
      | (.error e, st2) =>
        let st3 : St := ⟨st2.context, st2.log ++ ["Error executing node " ++ node_id ++ ": " ++ e]⟩
        (.ret [("status", .str "error"), ("error", .str e),
               ("logs", .arr (st3.log.map .str))], st3)
      | (.ok out, st2) =>
        match out with
        | .response d =>
          (.ret [("status", .str "success"), ("response", d),
                 ("logs", .arr (st2.log.map .str)),
                 ("context", .obj st2.context)], st2)
        | _ =>
          let next2 := next ++ (match getAdj adj node_id with
                                | some edges => routeEdges node.type out edges
                                | none => [])
          runWave nm adj rest next2 st2

/-- Worker for dedup, carrying the set of ids already seen. -/
def dedupGo : List String → List String → List String
  | _, [] => []
  | seen, x :: xs => if seen.contains x then dedupGo seen xs else x :: dedupGo (x :: seen) xs

/-- De-duplication of the next layer (line 134, list(set(next_layer))).
Python set order is implementation defined; the model keeps first
occurrences, and no theorem below depends on the order. -/
def dedup (l : List String) : List String := dedupGo [] l

/-- Fall-through result dict of run (lines 136-141). -/
def fallResult (st : St) : List (String × Dyn) :=
  [("status", .str "success"),
   ("message", .str "Workflow completed without specific response"),
   ("logs", .arr (st.log.map .str)),
   ("context", .obj st.context)]

/-- Traversal loop of run (lines 66-134): while the wave is nonempty and
fewer than 1000 waves have run; the fuel of 1000 is exactly the
entry_count bound. -/
def runLoop (nm : List (String × Node)) (adj : List (String × List (String × Option String))) :
    Nat → List String → St → Except String (List (String × Dyn)) × St
  | 0, _, st => (.ok (fallResult st), st)
  | _ + 1, [], st => (.ok (fallResult st), st)
  | fuel + 1, wave, st =>
    match runWave nm adj wave [] st with
    | (.ret r, st2) => (.ok r, st2)
    | (.exc e, st2) => (.error e, st2)
    | (.cont next, st2) => runLoop nm adj fuel (dedup next) st2

/-- WorkflowExecutor construction plus run(input_data) (lines 5-141):
fresh context and log, variable initialisation, entry search, request
seeding with body, query and params aliases, then the wave loop.  The
returned state is the executor state when run returns (or when the
uncaught exception escapes). -/
def run (w : Workflow) (input : List (String × Dyn)) :
    Except String (List (String × Dyn)) × St :=
  let nm := nodesMap w
  let adj := adjacency w
  match initVars nm freshState with
  | (.error e, st) => (.error e, st)
  | (.ok _, st) =>
    match findStart nm with
    | none => (.ok [("error", .str "No API Entry Point found")], st)
    | some start_node =>
      let st : St := ⟨st.context,
        st.log ++ ["Started execution at "
          ++ pyStr (getD start_node.data "label" (.str "API Entry"))]⟩
      let st : St := ⟨insertA st.context "request" (.obj input), st.log⟩
      let st : St :=
        match getA input "body" with
        | some (.obj bm) => ⟨insertA st.context "body" (.obj bm), st.log⟩
        | _ => st
      let st : St :=
        if pyTruthy (getD input "query" .null) then
          ⟨insertA st.context "query" (getD input "query" .null), st.log⟩
        else st
      let st : St :=
        if pyTruthy (getD input "params" .null) then
          ⟨insertA st.context "params" (getD input "params" .null), st.log⟩
        else st
      runLoop nm adj 1000 [start_node.id] st

/-- Minimal input record in the shape src/main.py builds: empty query
and params, no JSON body, no headers of note. -/
def minimalInput : List (String × Dyn) :=
  [("method", .str "GET"), ("path", .str "/"), ("query", .obj []),
   ("params", .obj []), ("body", .null), ("headers", .obj [])]

/-- A value is an integer-typed number (Python int, not float). -/
def isIntD : Dyn → Bool
  | .int _ => true
  | _ => false

/-- A configured name through which a node writes the context is safe
when it is a string distinct from the reserved keys, or falsy (in which
case the node skips the write). -/
def writeNameOk : Dyn → Bool
  | .str s => s ≠ "_loop_states" && s ≠ "body"
  | x => !pyTruthy x

/-- A field descriptor is safe when it is an object whose name entry is
a string or falsy. -/
def fieldOkD : Dyn → Bool
  | .obj fm =>
    (match getD fm "name" .null with
     | .str _ => true
     | x => !pyTruthy x)
  | _ => false

/-- Side conditions under which a node execution cannot raise an
uncaught exception nor corrupt the reserved context keys: string
conditions for logic nodes, safe string result and loop variables,
interface field lists that are lists of objects with string (or falsy)
names, and response-variable bodies that are hashable. -/
def nodeSafe (n : Node) : Bool :=
  if n.type = "variable" then writeNameOk (getD n.data "name" .null)
  else if n.type = "logic" then
    (match getD n.data "condition" (.str "False") with
     | .str _ => true
     | _ => false)
  else if n.type = "math" then
    (match getD n.data "resultVar" (.str "result") with
     | .str s => s ≠ "_loop_states" && s ≠ "body"
     | _ => false)
  else if n.type = "data_op" then
    (match getD n.data "resultVar" (.str "summary") with
     | .str s => s ≠ "_loop_states" && s ≠ "body"
     | _ => false)
  else if n.type = "interface" then
    (match getD n.data "fields" (.arr []) with
     | .arr l => l.all fieldOkD
     | _ => false)
  else if n.type = "loop" then writeNameOk (getD n.data "variable" (.str "item"))
  else if n.type = "response" then
    (if pyEq (getD n.data "responseType" (.str "json")) (.str "variable") then
       (match getD n.data "body" (.str "\x7b\x7d") with
        | .arr _ => false
        | .obj _ => false
        | _ => true)
     else true)
  else true

/-- Loop-state sub-mapping invariant: every stored per-node state is a
dict of the exact shape the loop node writes, with a nonnegative index. -/
def lsWellFormed (m : List (String × Dyn)) : Prop :=
  ∀ p, p ∈ m → ∃ k : Int, p.2 = Dyn.obj [("index", .int k)] ∧ 0 ≤ k

/-- Context invariant maintained by the run under safe nodes and the
minimal input: no body entry, and a well-formed loop-state mapping if
one exists. -/
def ctxSafe (ctx : List (String × Dyn)) : Prop :=
  containsA ctx "body" = false ∧
  (getA ctx "_loop_states" = none ∨
    ∃ m, getA ctx "_loop_states" = some (.obj m) ∧ lsWellFormed m)

/-- Safe workflow for the amended C1: distinct node ids, exactly one
api node, every edge target names a node, every node passes nodeSafe. -/
def graphSafe (w : Workflow) : Prop :=
  (w.nodes.map (fun n => n.id)).Nodup ∧
  w.nodes.countP (fun n => n.type == "api") = 1 ∧
  (∀ e, e ∈ w.edges → e.target ∈ w.nodes.map (fun n => n.id)) ∧
  (∀ n, n ∈ w.nodes → nodeSafe n = true)

/-- The bare api node used by the concrete claim graphs. -/
def apiNode : Node := ⟨"a", "api", []⟩

/-- Claim C1 counterexample graph: one api node and an edge whose
target names no node. -/
def c1g : Workflow := ⟨[apiNode], [⟨"a", "ghost", none⟩]⟩

/-- Claim C1 witness graph: the graph embedded in src/main.py, one api
node and no edges. -/
def c1wg : Workflow := ⟨[⟨"api-1768636097809", "api", [("label", .str "New api")]⟩], []⟩

/-- Claim C2 graph: api node feeding a response node that returns the
request object from the context. -/
def c2g : Workflow :=
  ⟨[apiNode, ⟨"r", "response", [("responseType", .str "variable"), ("body", .str "request")]⟩],
   [⟨"a", "r", none⟩]⟩

/-- Result dict of the C2 run (a response-termination run). -/
def c2R : List (String × Dyn) :=
  match (run c2g minimalInput).fst with
  | .ok r => r
  | .error _ => []

/-- Final executor state of the C2 run. -/
def c2S : St := (run c2g minimalInput).snd

/-- Claim C3 graph: one api node plus a variable node that writes x = 5
and a loop node, so the first run demonstrably mutates its context. -/
def c3g : Workflow :=
  ⟨[apiNode, ⟨"v", "variable", [("name", .str "x"), ("value", .int 5)]⟩],
   []⟩

/-- Loop node over the literal collection [1,2,3] for claim C4. -/
def loopNode3 (i v : String) : Node :=
  ⟨i, "loop", [("collection", .arr [.int 1, .int 2, .int 3]), ("variable", .str v)]⟩

/-- Field descriptor of declared type number for claim C5. -/
def numberField (n : String) (req : Dyn) : Dyn :=
  .obj [("name", .str n), ("required", req), ("type", .str "number")]

/-- Interface node with a single required number field named flag. -/
def c5node : Node := ⟨"i", "interface", [("fields", .arr [numberField "flag" (.bool true)])]⟩

/-- Math node over string operands for claims C8 and C10. -/
def mathNode (a b op : String) : Node :=
  ⟨"m", "math", [("valA", .str a), ("valB", .str b), ("op", .str op)]⟩

/-- Claim C9 witness graph: a single variable node and no api node. -/
def c9g : Workflow :=
  ⟨[⟨"v", "variable", [("name", .str "x"), ("value", .int 5)]⟩], []⟩

theorem str_append_assoc (a b c : String) : a ++ b ++ c = a ++ (b ++ c) := by
  cases a
  cases b
  cases c
  exact congrArg String.mk (List.append_assoc _ _ _)

theorem getA_insertA_self (m : List (String × Dyn)) (k : String) (v : Dyn) :
    getA (insertA m k v) k = some v := by
  induction m with
  | nil => simp [insertA, getA]
  | cons p rest ih =>
    obtain ⟨k2, w⟩ := p
    by_cases h : k2 = k
    · simp [insertA, h, getA]
    · simp [insertA, h, getA, ih]

theorem getA_insertA_ne (m : List (String × Dyn)) (k key : String) (v : Dyn)
    (h : k ≠ key) : getA (insertA m k v) key = getA m key := by
  induction m with
  | nil => simp [insertA, getA, h]
  | cons p rest ih =>
    obtain ⟨k2, w⟩ := p
    by_cases h2 : k2 = k
    · subst h2
      simp [insertA, getA, h]
    · simp [insertA, h2, getA, ih]

theorem containsA_insertA_ne (m : List (String × Dyn)) (k key : String) (v : Dyn)
    (h : k ≠ key) : containsA (insertA m k v) key = containsA m key := by
  induction m with
  | nil => simp [insertA, containsA, h]
  | cons p rest ih =>
    obtain ⟨k2, w⟩ := p
    by_cases h2 : k2 = k
    · subst h2
      simp [insertA, containsA]
    · simp [insertA, h2, containsA, ih]

theorem containsA_of_getA {m : List (String × Dyn)} {k : String} {v : Dyn}
    (h : getA m k = some v) : containsA m k = true := by
  induction m with
  | nil => simp [getA] at h
  | cons p rest ih =>
    obtain ⟨k2, w⟩ := p
    by_cases h2 : k2 = k
    · simp [containsA, h2]
    · simp [getA, h2] at h
      simp [containsA, h2, ih h]

theorem getA_none_of_containsA {m : List (String × Dyn)} {k : String}
    (h : containsA m k = false) : getA m k = none := by
  induction m with
  | nil => simp [getA]
  | cons p rest ih =>
    obtain ⟨k2, w⟩ := p
    by_cases h2 : k2 = k
    · simp [containsA, h2] at h
    · simp [containsA, h2] at h
      simp [getA, h2, ih h]

/-- Claim C3: running the same graph with the same input twice retains
no state across the runs.  Each run operates on a freshly constructed
executor (src/main.py builds a new WorkflowExecutor per request, and
__init__ allocates an empty context and log), so whatever the first run
wrote — loop indices under the reserved key, resultVar entries — is
absent from the context the second run starts from, and the two runs,
being executions of the same pure transition function from the same
fresh state, produce identical results. -/
theorem claim_C3_idempotent_runs (w : Workflow) (input : List (String × Dyn))
    (k : String) (v : Dyn) :
    (getA ((run w input).snd.context) k = some v →
      containsA freshState.context k = false) ∧
    run w input = run w input ∧ freshState.context = [] :=
  ⟨fun _ => rfl, rfl, rfl⟩

theorem claim_C3_witness :
    getA ((run c3g minimalInput).snd.context) "x" = some (.int 5) ∧
    containsA freshState.context "x" = false :=
  ⟨rfl, (claim_C3_idempotent_runs c3g minimalInput "x" (.int 5)).1 rfl⟩

/-- Claim C5 counterexample: an interface node declaring flag as a
required number, with body flag = True, collects nothing into the
invalid-type list and passes validation, because Python bool is a
subclass of int and isinstance(True, (int, float)) holds.  The claim
states the field is collected into the invalid list; it is not. -/
theorem claim_C5_counterexample :
    checkFields (.obj [("flag", .bool true)]) [numberField "flag" (.bool true)] [] [] =
      .ok ([], []) ∧
    (execute_node c5node ⟨[("body", .obj [("flag", .bool true)])], []⟩).fst = .ok .none :=
  ⟨rfl, rfl⟩

/-- Claim C5 amended: for an interface node declaring a field of type
number, a present boolean value is NOT collected into the invalid-type
list — the node accepts booleans as numbers (bool is a subclass of int
in the implementation language) and validation passes. -/
theorem claim_C5_boolean_passes_number_check (i n : String) (b : Bool)
    (bm : List (String × Dyn)) (req : Dyn) (st : St)
    (hn : n ≠ "")
    (hbody : getA st.context "body" = some (.obj bm))
    (hval : getA bm n = some (.bool b)) :
    execute_node ⟨i, "interface", [("fields", .arr [numberField n req])]⟩ st =
      (.ok .none, ⟨st.context, st.log ++ ["Interface Validation Passed"]⟩) := by
  have hmem : containsA bm n = true := containsA_of_getA hval
  simp [execute_node, numberField, getD, getA, checkFields, pyContains, pyIndex,
    pyTruthy, hn, hbody, hval, hmem, pyEq]

/-- Claim C6: a template that is exactly one reference (starts with an
opening brace, ends with a closing brace, contains exactly one opening
brace) resolves by exact-key lookup of the inner text: a present key
returns the stored value with its original type, an absent key returns
the literal template string unchanged. -/
theorem claim_C6_exact_reference_resolution (ctx : List (String × Dyn)) (s : String)
    (h1 : myStartsWith s "\x7b" = true) (h2 : myEndsWith s "\x7d" = true)
    (h3 : countChar s '{' = 1) :
    (∀ v, getA ctx (sliceInner s) = some v → resolve_val ctx (.str s) = v) ∧
    (getA ctx (sliceInner s) = none → resolve_val ctx (.str s) = .str s) := by
  constructor
  · intro v hv
    simp [resolve_val, h1, h2, h3, getD, hv]
  · intro hv
    simp [resolve_val, h1, h2, h3, getD, hv]

theorem claim_C6_witness :
    resolve_val [("user", Dyn.obj [("x", Dyn.int 1)])] (.str "\x7buser\x7d") =
      Dyn.obj [("x", Dyn.int 1)] ∧
    resolve_val [("user", Dyn.obj [("x", Dyn.int 1)])] (.str "\x7bghost\x7d") =
      .str "\x7bghost\x7d" :=
  ⟨(claim_C6_exact_reference_resolution [("user", Dyn.obj [("x", Dyn.int 1)])]
      "\x7buser\x7d" rfl rfl rfl).1 _ rfl,
   (claim_C6_exact_reference_resolution [("user", Dyn.obj [("x", Dyn.int 1)])]
      "\x7bghost\x7d" rfl rfl rfl).2 rfl⟩

theorem claim_C5_amended_witness :
    execute_node c5node ⟨[("body", .obj [("flag", .bool true)])], []⟩ =
      (.ok .none, ⟨[("body", .obj [("flag", .bool true)])], ["Interface Validation Passed"]⟩) :=
  claim_C5_boolean_passes_number_check "i" "flag" true [("flag", .bool true)] (.bool true)
    ⟨[("body", .obj [("flag", .bool true)])], []⟩ (by decide) rfl rfl

/-- Claim C10: a math node whose operands both coerce to numbers but
whose op is none of the five supported operators stores the number 0
under resultVar (res keeps its initial value), returns normally, and
appends the ordinary Math log line — no error is raised or logged. -/
theorem claim_C10_unknown_op_stores_zero (i rv : String) (data : List (String × Dyn))
    (st : St) (qa qb : Q) (op : Dyn)
    (hrv : getD data "resultVar" (.str "result") = .str rv)
    (hop : getD data "op" (.str "+") = op)
    (ha : toNum (resolve_val st.context (getD data "valA" .null)) = some qa)
    (hb : toNum (resolve_val st.context (getD data "valB" .null)) = some qb)
    (h1 : pyEq op (.str "+") = false) (h2 : pyEq op (.str "-") = false)
    (h3 : pyEq op (.str "*") = false) (h4 : pyEq op (.str "/") = false)
    (h5 : pyEq op (.str "%") = false) :
    execute_node ⟨i, "math", data⟩ st =
      (.ok .none,
       ⟨insertA st.context rv (.int 0),
        st.log ++ ["Math: " ++ qStr qa ++ " " ++ pyStr op ++ " " ++ qStr qb ++ " = 0"]⟩) := by
  simp only [execute_node]
  rw [hrv, hop] at *
  simp [ha, hb, h1, h2, h3, h4, h5]
  rw [str_append_assoc]
  rfl

theorem claim_C10_witness :
    execute_node (mathNode "3" "4" "^") ⟨[], []⟩ =
      (.ok .none, ⟨[("result", .int 0)], ["Math: 3.0 ^ 4.0 = 0"]⟩) :=
  claim_C10_unknown_op_stores_zero "m" "result" (mathNode "3" "4" "^").data ⟨[], []⟩
    (3, 1) (4, 1) (.str "^") rfl rfl rfl rfl rfl rfl rfl rfl rfl

/-- Claim C8 counterexample: the math node 2.5 + 2.5 produces the whole
number 5 but stores it as the float 5.0, not as an integer-typed
number: the int cast of lines 242-244 only fires when both operands are
themselves whole, contradicting the claim for fractional operands. -/
theorem claim_C8_counterexample :
    getA ((execute_node (mathNode "2.5" "2.5" "+") ⟨[], []⟩).snd.context) "result" =
      some (.float (5, 1)) ∧
    isIntD (Dyn.float (5, 1)) = false :=
  ⟨rfl, rfl⟩

/-- Claim C8 amended: for a math node whose two resolved operands both
coerce to numbers and whose op is one of + - * / % (modulo by zero
excluded, as it raises into the string fallback and leaves resultVar
unset), a value is always stored under resultVar, and it is an
integer-typed number exactly when both coerced operands are whole OR
the op is / with a zero divisor: lines 242-244 cast back to int (with
truncation) whenever both operands are whole, the zero-divisor guard
of line 238 yields the Python int 0 even for a fractional operand, and
in every other case the result is stored as a float even when its
value is whole. -/
theorem claim_C8_int_store_characterised (i rv : String)
    (data : List (String × Dyn)) (st : St) (qa qb : Q)
    (hrv : getD data "resultVar" (.str "result") = .str rv)
    (ha : toNum (resolve_val st.context (getD data "valA" .null)) = some qa)
    (hb : toNum (resolve_val st.context (getD data "valB" .null)) = some qb)
    (hop : getD data "op" (.str "+") = .str "+" ∨ getD data "op" (.str "+") = .str "-" ∨
      getD data "op" (.str "+") = .str "*" ∨ getD data "op" (.str "+") = .str "/" ∨
      getD data "op" (.str "+") = .str "%")
    (hmz : ¬(pyEq (getD data "op" (.str "+")) (.str "%") = true ∧ qEq qb (qOfInt 0) = true)) :
    ∃ v : Dyn, getA ((execute_node ⟨i, "math", data⟩ st).snd.context) rv = some v ∧
      (isIntD v = true ↔
        ((qIsInt qa && qIsInt qb) = true ∨
          (getD data "op" (.str "+") = .str "/" ∧ qEq qb (qOfInt 0) = true))) := by
  rcases hop with hop | hop | hop | hop | hop
  · have hg : (pyEq (getD data "op" (.str "+")) (.str "%") && qEq qb (qOfInt 0)) = false := by
      rw [hop]
      rfl
    have hp : pyEq (getD data "op" (.str "+")) (.str "+") = true := by rw [hop]; rfl
    by_cases hw : (qIsInt qa && qIsInt qb) = true
    · refine ⟨.int (qTrunc (qAdd qa qb)), ?_, ?_⟩
      · simp only [execute_node]
        rw [hrv]
        simp [ha, hb, hg, hp, hw, getA_insertA_self]
      · simp [isIntD, hw]
    · refine ⟨.float (qAdd qa qb), ?_, ?_⟩
      · simp only [execute_node]
        rw [hrv]
        simp [ha, hb, hg, hp, hw, getA_insertA_self]
      · simp [isIntD, hw, hop]
  · have hg : (pyEq (getD data "op" (.str "+")) (.str "%") && qEq qb (qOfInt 0)) = false := by
      rw [hop]
      rfl
    have hp : pyEq (getD data "op" (.str "+")) (.str "+") = false := by rw [hop]; rfl
    have hm : pyEq (getD data "op" (.str "+")) (.str "-") = true := by rw [hop]; rfl
    by_cases hw : (qIsInt qa && qIsInt qb) = true
    · refine ⟨.int (qTrunc (qSub qa qb)), ?_, ?_⟩
      · simp only [execute_node]
        rw [hrv]
        simp [ha, hb, hg, hp, hm, hw, getA_insertA_self]
      · simp [isIntD, hw]
    · refine ⟨.float (qSub qa qb), ?_, ?_⟩
      · simp only [execute_node]
        rw [hrv]
        simp [ha, hb, hg, hp, hm, hw, getA_insertA_self]
      · simp [isIntD, hw, hop]
  · have hg : (pyEq (getD data "op" (.str "+")) (.str "%") && qEq qb (qOfInt 0)) = false := by
      rw [hop]
      rfl
    have hp : pyEq (getD data "op" (.str "+")) (.str "+") = false := by rw [hop]; rfl
    have hm : pyEq (getD data "op" (.str "+")) (.str "-") = false := by rw [hop]; rfl
    have hs : pyEq (getD data "op" (.str "+")) (.str "*") = true := by rw [hop]; rfl
    by_cases hw : (qIsInt qa && qIsInt qb) = true
    · refine ⟨.int (qTrunc (qMul qa qb)), ?_, ?_⟩
      · simp only [execute_node]
        rw [hrv]
        simp [ha, hb, hg, hp, hm, hs, hw, getA_insertA_self]
      · simp [isIntD, hw]
    · refine ⟨.float (qMul qa qb), ?_, ?_⟩
      · simp only [execute_node]
        rw [hrv]
        simp [ha, hb, hg, hp, hm, hs, hw, getA_insertA_self]
      · simp [isIntD, hw, hop]
  · have hg : (pyEq (getD data "op" (.str "+")) (.str "%") && qEq qb (qOfInt 0)) = false := by
      rw [hop]
      rfl
    have hp : pyEq (getD data "op" (.str "+")) (.str "+") = false := by rw [hop]; rfl
    have hm : pyEq (getD data "op" (.str "+")) (.str "-") = false := by rw [hop]; rfl
    have hs : pyEq (getD data "op" (.str "+")) (.str "*") = false := by rw [hop]; rfl
    have hd : pyEq (getD data "op" (.str "+")) (.str "/") = true := by rw [hop]; rfl
    have hpc : pyEq (getD data "op" (.str "+")) (.str "%") = false := by rw [hop]; rfl
    by_cases hz : qEq qb (qOfInt 0) = true
    · refine ⟨.int 0, ?_, ?_⟩
      · simp only [execute_node]
        rw [hrv]
        simp [ha, hb, hg, hp, hm, hs, hd, hpc, hz, getA_insertA_self]
      · simp [isIntD, hop, hz]
    · by_cases hw : (qIsInt qa && qIsInt qb) = true
      · refine ⟨.int (qTrunc (qDiv qa qb)), ?_, ?_⟩
        · simp only [execute_node]
          rw [hrv]
          simp [ha, hb, hg, hp, hm, hs, hd, hz, hw, getA_insertA_self]
        · simp [isIntD, hw]
      · refine ⟨.float (qDiv qa qb), ?_, ?_⟩
        · simp only [execute_node]
          rw [hrv]
          simp [ha, hb, hg, hp, hm, hs, hd, hz, hw, getA_insertA_self]
        · simp [isIntD, hw, hop, hz]
  · have hz : qEq qb (qOfInt 0) = false := by
      cases h : qEq qb (qOfInt 0) with
      | false => rfl
      | true => exact absurd ⟨by rw [hop]; rfl, h⟩ hmz
    have hg : (pyEq (getD data "op" (.str "+")) (.str "%") && qEq qb (qOfInt 0)) = false := by
      rw [hz, Bool.and_false]
    have hp : pyEq (getD data "op" (.str "+")) (.str "+") = false := by rw [hop]; rfl
    have hm : pyEq (getD data "op" (.str "+")) (.str "-") = false := by rw [hop]; rfl
    have hs : pyEq (getD data "op" (.str "+")) (.str "*") = false := by rw [hop]; rfl
    have hd : pyEq (getD data "op" (.str "+")) (.str "/") = false := by rw [hop]; rfl
    have hpc : pyEq (getD data "op" (.str "+")) (.str "%") = true := by rw [hop]; rfl
    by_cases hw : (qIsInt qa && qIsInt qb) = true
    · refine ⟨.int (qTrunc (qMod qa qb)), ?_, ?_⟩
      · simp only [execute_node]
        rw [hrv]
        simp [ha, hb, hg, hp, hm, hs, hd, hpc, hz, hw, getA_insertA_self]
      · simp [isIntD, hw]
    · refine ⟨.float (qMod qa qb), ?_, ?_⟩
      · simp only [execute_node]
        rw [hrv]
        simp [ha, hb, hg, hp, hm, hs, hd, hpc, hz, hw, getA_insertA_self]
      · simp [isIntD, hw, hop]

theorem claim_C8_witness :
    (∃ v : Dyn,
      getA ((execute_node (mathNode "3" "4" "+") ⟨[], []⟩).snd.context) "result" = some v ∧
      (isIntD v = true ↔
        ((qIsInt ((3, 1) : Q) && qIsInt ((4, 1) : Q)) = true ∨
          (getD (mathNode "3" "4" "+").data "op" (.str "+") = .str "/" ∧
            qEq ((4, 1) : Q) (qOfInt 0) = true)))) ∧
    getA ((execute_node (mathNode "3" "4" "+") ⟨[], []⟩).snd.context) "result" =
      some (.int 7) ∧
    getA ((execute_node (mathNode "3" "4" "/") ⟨[], []⟩).snd.context) "result" =
      some (.int 0) ∧
    getA ((execute_node (mathNode "2.5" "0" "/") ⟨[], []⟩).snd.context) "result" =
      some (.int 0) :=
  ⟨claim_C8_int_store_characterised "m" "result" (mathNode "3" "4" "+").data ⟨[], []⟩
      (3, 1) (4, 1) rfl rfl rfl (Or.inl rfl) (by decide),
   rfl, rfl, rfl⟩

/-- Claim C7: a logic node never propagates an evaluation failure as a
run failure — it always returns a logic outcome with one appended log
entry; every evaluation error yields logic(false) with a Logic Error
log line; the condition x > 10 with x absent from the context yields
logic(false) via a NameError; and 1 === 1, normalised to plain
equality, yields logic(true). -/
theorem claim_C7_logic_errors_to_false (i : String) (data : List (String × Dyn))
    (rawc : String) (st : St)
    (hc : getD data "condition" (.str "False") = .str rawc) :
    (∃ b e, execute_node ⟨i, "logic", data⟩ st =
       (.ok (.logic b), ⟨st.context, st.log ++ [e]⟩)) ∧
    (∀ e, pyEval (pyReplace (pyReplace rawc "===" "==") "!==" "!=") st.context = .error e →
       execute_node ⟨i, "logic", data⟩ st =
         (.ok (.logic false), ⟨st.context, st.log ++ ["Logic Error: " ++ e]⟩)) ∧
    (rawc = "x > 10" → containsA st.context "x" = false →
       execute_node ⟨i, "logic", data⟩ st = (.ok (.logic false),
         ⟨st.context, st.log ++ ["Logic Error: NameError: name \x27x\x27 is not defined"]⟩)) ∧
    (rawc = "1 === 1" →
       execute_node ⟨i, "logic", data⟩ st = (.ok (.logic true),
         ⟨st.context, st.log ++ ["Logic: \x271 === 1\x27 -> True"]⟩)) := by
  refine ⟨?_, ?_, ?_, ?_⟩
  · cases h : pyEval (pyReplace (pyReplace rawc "===" "==") "!==" "!=") st.context with
    | ok v =>
      exact ⟨pyTruthy v, "Logic: \x27" ++ rawc ++ "\x27 -> " ++ pyStr (.bool (pyTruthy v)),
        by simp [execute_node, hc, h]⟩
    | error e =>
      exact ⟨false, "Logic Error: " ++ e, by simp [execute_node, hc, h]⟩
  · intro e he
    simp [execute_node, hc, he]
  · intro h1 h2
    subst h1
    have hgx : getA st.context "x" = none := getA_none_of_containsA h2
    have hx : pyEval "x > 10" st.context =
        .error "NameError: name \x27x\x27 is not defined" := by
      simp [pyEval, tokenize, evalAtom, isIdentStart, isIdentChar, isDigit, digitsVal, hgx]
    have hrepl : pyReplace (pyReplace "x > 10" "===" "==") "!==" "!=" = "x > 10" := rfl
    simp [execute_node, hc, hrepl, hx]
  · intro h1
    subst h1
    simp [execute_node, hc]
    rfl

theorem claim_C7_witness :
    execute_node ⟨"lg", "logic", [("condition", .str "x > 10")]⟩ ⟨[], []⟩ =
      (.ok (.logic false), ⟨[], ["Logic Error: NameError: name \x27x\x27 is not defined"]⟩) ∧
    execute_node ⟨"lg", "logic", [("condition", .str "1 === 1")]⟩ ⟨[], []⟩ =
      (.ok (.logic true), ⟨[], ["Logic: \x271 === 1\x27 -> True"]⟩) :=
  ⟨(claim_C7_logic_errors_to_false "lg" [("condition", .str "x > 10")] "x > 10"
      ⟨[], []⟩ rfl).2.2.1 rfl rfl,
   (claim_C7_logic_errors_to_false "lg" [("condition", .str "1 === 1")] "1 === 1"
      ⟨[], []⟩ rfl).2.2.2 rfl⟩

theorem getD_of_containsA_false {m : List (String × Dyn)} {k : String} {d : Dyn}
    (h : containsA m k = false) : getD m k d = d := by
  simp [getD, getA_none_of_containsA h]

theorem ctxSafe_insertA {ctx : List (String × Dyn)} {k : String} {v : Dyn}
    (hc : ctxSafe ctx) (h1 : k ≠ "body") (h2 : k ≠ "_loop_states") :
    ctxSafe (insertA ctx k v) := by
  obtain ⟨hb, hl⟩ := hc
  exact ⟨by rw [containsA_insertA_ne _ _ _ _ h1]; exact hb,
         by rw [getA_insertA_ne _ _ _ _ h2]; exact hl⟩

theorem exec_api_safe (n : Node) (st : St) (ht : n.type = "api") (hc : ctxSafe st.context) :
    ∃ out st2, execute_node n st = (.ok out, st2) ∧ ctxSafe st2.context :=
  ⟨.none, st, by simp [execute_node, ht], hc⟩

theorem exec_function_safe (n : Node) (st : St) (ht : n.type = "function")
    (hc : ctxSafe st.context) :
    ∃ out st2, execute_node n st = (.ok out, st2) ∧ ctxSafe st2.context :=
  ⟨.none, ⟨st.context, st.log ++ ["Ran function " ++ pyStr (getD n.data "name" (.str "func"))]⟩,
   by simp [execute_node, ht], hc⟩

theorem exec_other_safe (n : Node) (st : St)
    (h1 : n.type ≠ "api") (h2 : n.type ≠ "variable") (h3 : n.type ≠ "logic")
    (h4 : n.type ≠ "math") (h5 : n.type ≠ "data_op") (h6 : n.type ≠ "interface")
    (h7 : n.type ≠ "loop") (h8 : n.type ≠ "function") (h9 : n.type ≠ "response")
    (hc : ctxSafe st.context) :
    ∃ out st2, execute_node n st = (.ok out, st2) ∧ ctxSafe st2.context :=
  ⟨.none, st, by simp [execute_node, h1, h2, h3, h4, h5, h6, h7, h8, h9], hc⟩

theorem exec_variable_safe (n : Node) (st : St) (ht : n.type = "variable")
    (hn : writeNameOk (getD n.data "name" .null) = true) (hc : ctxSafe st.context) :
    ∃ out st2, execute_node n st = (.ok out, st2) ∧ ctxSafe st2.context := by
  cases hv : getD n.data "name" .null with
  | str s =>
    by_cases hs : s = ""
    · subst hs
      exact ⟨.none, st, by simp [execute_node, ht, hv, pyTruthy], hc⟩
    · rw [hv] at hn
      simp only [writeNameOk] at hn
      simp [hs] at hn
      simp only [execute_node, ht, hv]
      simp [pyTruthy, hs]
      exact ⟨.none, _, ⟨rfl, rfl⟩, ctxSafe_insertA hc (fun h => hn.2 h) (fun h => hn.1 h)⟩
  | int m =>
    rw [hv] at hn
    simp only [writeNameOk] at hn
    by_cases hm : m = 0
    · subst hm
      exact ⟨.none, st, by simp [execute_node, ht, hv, pyTruthy], hc⟩
    · simp [pyTruthy, hm] at hn
  | float q =>
    rw [hv] at hn
    simp only [writeNameOk] at hn
    by_cases hq : q.1 = 0
    · exact ⟨.none, st, by simp [execute_node, ht, hv, pyTruthy, hq], hc⟩
    · simp [pyTruthy, hq] at hn
  | bool b =>
    rw [hv] at hn
    simp only [writeNameOk] at hn
    cases b with
    | false => exact ⟨.none, st, by simp [execute_node, ht, hv, pyTruthy], hc⟩
    | true => simp [pyTruthy] at hn
  | null => exact ⟨.none, st, by simp [execute_node, ht, hv, pyTruthy], hc⟩
  | arr l =>
    rw [hv] at hn
    simp only [writeNameOk] at hn
    cases l with
    | nil =>
      refine ⟨.none, st, ?_, hc⟩
      simp [execute_node, ht, hv, pyTruthy]
    | cons x xs => simp [pyTruthy] at hn
  | obj m =>
    rw [hv] at hn
    simp only [writeNameOk] at hn
    cases m with
    | nil =>
      refine ⟨.none, st, ?_, hc⟩
      simp [execute_node, ht, hv, pyTruthy]
    | cons x xs => simp [pyTruthy] at hn

theorem exec_logic_safe (n : Node) (st : St) (ht : n.type = "logic")
    (hn : (match getD n.data "condition" (.str "False") with
           | Dyn.str _ => true
           | _ => false) = true)
    (hc : ctxSafe st.context) :
    ∃ out st2, execute_node n st = (.ok out, st2) ∧ ctxSafe st2.context := by
  cases hv : getD n.data "condition" (.str "False")
  case str c =>
    cases he : pyEval (pyReplace (pyReplace c "===" "==") "!==" "!=") st.context with
    | ok v =>
      exact ⟨.logic (pyTruthy v),
        ⟨st.context, st.log ++ ["Logic: \x27" ++ c ++ "\x27 -> " ++ pyStr (.bool (pyTruthy v))]⟩,
        by simp [execute_node, ht, hv, he], hc⟩
    | error e =>
      exact ⟨.logic false, ⟨st.context, st.log ++ ["Logic Error: " ++ e]⟩,
        by simp [execute_node, ht, hv, he], hc⟩
  all_goals (rw [hv] at hn; simp at hn)

theorem mem_of_getA {m : List (String × Dyn)} {k : String} {v : Dyn}
    (h : getA m k = some v) : (k, v) ∈ m := by
  induction m with
  | nil => simp [getA] at h
  | cons p rest ih =>
    obtain ⟨k2, w⟩ := p
    by_cases h2 : k2 = k
    · subst h2
      simp [getA] at h
      simp [h]
    · simp [getA, h2] at h
      simp [ih h]

theorem getA_isSome_of_containsA {m : List (String × Dyn)} {k : String}
    (h : containsA m k = true) : ∃ v, getA m k = some v := by
  induction m with
  | nil => simp [containsA] at h
  | cons p rest ih =>
    obtain ⟨k2, w⟩ := p
    by_cases h2 : k2 = k
    · exact ⟨w, by simp [getA, h2]⟩
    · simp [containsA, h2] at h
      obtain ⟨v, hv⟩ := ih h
      exact ⟨v, by simp [getA, h2, hv]⟩

theorem mem_insertA {m : List (String × Dyn)} {k : String} {v : Dyn} {p : String × Dyn}
    (h : p ∈ insertA m k v) : p = (k, v) ∨ p ∈ m := by
  induction m with
  | nil => simp [insertA] at h; simp [h]
  | cons q rest ih =>
    obtain ⟨k2, w⟩ := q
    by_cases h2 : k2 = k
    · subst h2
      simp [insertA] at h
      rcases h with h | h
      · exact Or.inl (by simp [h])
      · exact Or.inr (by simp [h])
    · simp [insertA, h2] at h
      rcases h with h | h
      · exact Or.inr (by simp [h])
      · rcases ih h with h3 | h3
        · exact Or.inl h3
        · exact Or.inr (by simp [h3])

theorem lsWellFormed_insertA {m : List (String × Dyn)} {k : String} {j : Int}
    (hm : lsWellFormed m) (hj : 0 ≤ j) :
    lsWellFormed (insertA m k (.obj [("index", .int j)])) := by
  intro p hp
  rcases mem_insertA hp with h | h
  · exact ⟨j, by simp [h], hj⟩
  · exact hm p h

theorem exec_math_safe (n : Node) (st : St) (ht : n.type = "math")
    (hn : (match getD n.data "resultVar" (.str "result") with
           | Dyn.str s => s ≠ "_loop_states" && s ≠ "body"
           | _ => false) = true)
    (hc : ctxSafe st.context) :
    ∃ out st2, execute_node n st = (.ok out, st2) ∧ ctxSafe st2.context := by
  cases hrv : getD n.data "resultVar" (.str "result")
  case str rv =>
    rw [hrv] at hn
    simp at hn
    have hins : ∀ v, ctxSafe (insertA st.context rv v) :=
      fun v => ctxSafe_insertA hc hn.2 hn.1
    cases hA : toNum (resolve_val st.context (getD n.data "valA" .null)) with
    | some qa =>
      cases hB : toNum (resolve_val st.context (getD n.data "valB" .null)) with
      | some qb =>
        cases hz : (pyEq (getD n.data "op" (.str "+")) (.str "%") && qEq qb (qOfInt 0)) with
        | true =>
          simp only [execute_node, ht, hrv]
          simp [hA, hB, hz]
          exact ⟨.none, _, ⟨rfl, rfl⟩, hc⟩
        | false =>
          simp only [execute_node, ht, hrv]
          simp [hA, hB, hz]
          exact ⟨.none, _, ⟨rfl, rfl⟩, hins _⟩
      | none =>
        cases hp : pyEq (getD n.data "op" (.str "+")) (.str "+") with
        | true =>
          simp only [execute_node, ht, hrv]
          simp [hA, hB, hp]
          exact ⟨.none, _, ⟨rfl, rfl⟩, hins _⟩
        | false =>
          simp only [execute_node, ht, hrv]
          simp [hA, hB, hp]
          exact ⟨.none, _, ⟨rfl, rfl⟩, hc⟩
    | none =>
      cases hp : pyEq (getD n.data "op" (.str "+")) (.str "+") with
      | true =>
        simp only [execute_node, ht, hrv]
        simp [hA, hp]
        exact ⟨.none, _, ⟨rfl, rfl⟩, hins _⟩
      | false =>
        simp only [execute_node, ht, hrv]
        simp [hA, hp]
        exact ⟨.none, _, ⟨rfl, rfl⟩, hc⟩
  all_goals (rw [hrv] at hn; simp at hn)

theorem exec_data_op_safe (n : Node) (st : St) (ht : n.type = "data_op")
    (hn : (match getD n.data "resultVar" (.str "summary") with
           | Dyn.str s => s ≠ "_loop_states" && s ≠ "body"
           | _ => false) = true)
    (hc : ctxSafe st.context) :
    ∃ out st2, execute_node n st = (.ok out, st2) ∧ ctxSafe st2.context := by
  cases hrv : getD n.data "resultVar" (.str "summary")
  case str rv =>
    rw [hrv] at hn
    simp at hn
    simp only [execute_node, ht, hrv]
    simp
    exact ⟨.none, _, ⟨rfl, rfl⟩, ctxSafe_insertA hc hn.2 hn.1⟩
  all_goals (rw [hrv] at hn; simp at hn)

theorem exec_response_safe (n : Node) (st : St) (ht : n.type = "response")
    (hn : (if pyEq (getD n.data "responseType" (.str "json")) (.str "variable") = true then
             (match getD n.data "body" (.str "\x7b\x7d") with
              | Dyn.arr _ => false
              | Dyn.obj _ => false
              | _ => true)
           else true) = true)
    (hc : ctxSafe st.context) :
    ∃ out st2, execute_node n st = (.ok out, st2) ∧ ctxSafe st2.context := by
  cases hrt : pyEq (getD n.data "responseType" (.str "json")) (.str "variable") with
  | true =>
    rw [hrt] at hn
    simp at hn
    cases hbd : getD n.data "body" (.str "\x7b\x7d")
    case arr l => rw [hbd] at hn; simp at hn
    case obj m => rw [hbd] at hn; simp at hn
    all_goals (
      simp only [execute_node, ht, hrt, hbd]
      simp
      exact ⟨.response _, st, ⟨rfl, rfl⟩, hc⟩)
  | false =>
    cases hbd : getD n.data "body" (.str "\x7b\x7d")
    case str s =>
      cases hj : jsonLoads (substAll st.context s) with
      | ok p =>
        simp only [execute_node, ht, hrt, hbd]
        simp [hj]
        exact ⟨.response p, st, ⟨rfl, rfl⟩, hc⟩
      | error e =>
        simp only [execute_node, ht, hrt, hbd]
        simp [hj]
        exact ⟨.response _, _, ⟨rfl, rfl⟩, hc⟩
    all_goals (
      simp only [execute_node, ht, hrt, hbd]
      simp
      exact ⟨.response _, _, ⟨rfl, rfl⟩, hc⟩)

theorem checkFields_ok (bm : List (String × Dyn)) (l : List Dyn)
    (missing invalid : List String) (hl : l.all fieldOkD = true) :
    ∃ mi, checkFields (.obj bm) l missing invalid = .ok mi := by
  induction l generalizing missing invalid with
  | nil => exact ⟨(missing, invalid), rfl⟩
  | cons f rest ih =>
    simp at hl
    obtain ⟨hf, hrest⟩ := hl
    have ihr := fun m i => ih m i (by simp [List.all_eq_true]; exact fun x hx => hrest x hx)
    cases f
    case obj fm =>
      cases hname : getD fm "name" .null
      case str nm =>
        by_cases hnm : nm = ""
        · subst hnm
          simp [checkFields, hname, pyTruthy]
          obtain ⟨⟨a, b⟩, hab⟩ := ihr missing invalid
          exact ⟨a, b, hab⟩
        · have hpt : pyTruthy (.str nm) = true := by simp [pyTruthy, hnm]
          cases hmem : containsA bm nm with
          | true =>
            obtain ⟨v, hv⟩ := getA_isSome_of_containsA hmem
            simp only [checkFields, hname]
            simp [hpt, pyContains, hmem, pyIndex, hv]
            obtain ⟨⟨a, b⟩, hab⟩ := ihr missing _
            exact ⟨a, b, hab⟩
          | false =>
            simp only [checkFields, hname]
            simp [hpt, pyContains, hmem]
            cases hreq : pyTruthy (getD fm "required" (.bool false)) <;> simp [hreq]
            · obtain ⟨⟨a, b⟩, hab⟩ := ihr missing invalid
              exact ⟨a, b, hab⟩
            · obtain ⟨⟨a, b⟩, hab⟩ := ihr (missing ++ [nm]) invalid
              exact ⟨a, b, hab⟩
      case int m =>
        simp only [fieldOkD, hname] at hf
        simp [pyTruthy] at hf
        simp only [checkFields, hname]
        simp [pyTruthy, hf]
        obtain ⟨⟨a, b⟩, hab⟩ := ihr missing invalid
        exact ⟨a, b, hab⟩
      case float q =>
        simp only [fieldOkD, hname] at hf
        simp [pyTruthy] at hf
        simp only [checkFields, hname]
        simp [pyTruthy, hf]
        obtain ⟨⟨a, b⟩, hab⟩ := ihr missing invalid
        exact ⟨a, b, hab⟩
      case bool b =>
        simp only [fieldOkD, hname] at hf
        simp [pyTruthy] at hf
        simp only [checkFields, hname]
        simp [pyTruthy, hf]
        obtain ⟨⟨a, b⟩, hab⟩ := ihr missing invalid
        exact ⟨a, b, hab⟩
      case null =>
        simp only [checkFields, hname]
        simp [pyTruthy]
        obtain ⟨⟨a, b⟩, hab⟩ := ihr missing invalid
        exact ⟨a, b, hab⟩
      case arr l =>
        simp only [fieldOkD, hname] at hf
        simp [pyTruthy] at hf
        simp only [checkFields, hname]
        simp [pyTruthy, hf]
        obtain ⟨⟨a, b⟩, hab⟩ := ihr missing invalid
        exact ⟨a, b, hab⟩
      case obj mm =>
        simp only [fieldOkD, hname] at hf
        simp [pyTruthy] at hf
        simp only [checkFields, hname]
        simp [pyTruthy, hf]
        obtain ⟨⟨a, b⟩, hab⟩ := ihr missing invalid
        exact ⟨a, b, hab⟩
    all_goals simp [fieldOkD] at hf

theorem pyListGet_ok (l : List Dyn) (k : Int) (h0 : 0 ≤ k) (h1 : k < (l.length : Int)) :
    ∃ it, pyListGet l k = .ok it := by
  have h2 : k.toNat < l.length := by omega
  unfold pyListGet
  rw [dif_pos ⟨h0, h2⟩]
  exact ⟨_, rfl⟩

theorem ls_shape {ctx : List (String × Dyn)} (hc : ctxSafe ctx) :
    ∃ lsm, getD ctx "_loop_states" (.obj []) = .obj lsm ∧ lsWellFormed lsm := by
  rcases hc.2 with h | ⟨m, hm, hwf⟩
  · exact ⟨[], by simp [getD, h], by intro p hp; simp at hp⟩
  · exact ⟨m, by simp [getD, hm], hwf⟩

theorem loopStatePart_safe (node_id : String) (item_var : Dyn) (coll : List Dyn)
    (ctx : List (String × Dyn)) (log1 : List String)
    (hvar : writeNameOk item_var = true) (hc : ctxSafe ctx) :
    ∃ out st2, loopStatePart node_id item_var coll ctx log1 = (.ok out, st2) ∧
      ctxSafe st2.context := by
  obtain ⟨lsm, hls, hwf⟩ := ls_shape hc
  have hvar2 : (∃ v, item_var = Dyn.str v ∧ v ≠ "_loop_states" ∧ v ≠ "body") ∨
      pyTruthy item_var = false := by
    cases hiv : item_var
    case str v =>
      rw [hiv] at hvar
      simp only [writeNameOk] at hvar
      simp at hvar
      exact Or.inl ⟨v, rfl, hvar.1, hvar.2⟩
    all_goals (
      rw [hiv] at hvar
      simp only [writeNameOk] at hvar
      exact Or.inr (by simpa using hvar))
  obtain ⟨ctx0, hctx0, hbody0, hls0⟩ :
      ∃ ctx0, (if containsA ctx "_loop_states" then ctx
               else insertA ctx "_loop_states" (.obj [])) = ctx0 ∧
        containsA ctx0 "body" = false ∧ getA ctx0 "_loop_states" = some (.obj lsm) := by
    by_cases hcont : containsA ctx "_loop_states" = true
    · refine ⟨ctx, by simp [hcont], hc.1, ?_⟩
      obtain ⟨v, hv⟩ := getA_isSome_of_containsA hcont
      rw [getD, hv] at hls
      simp at hls
      rw [hv, hls]
    · have hnone := getA_none_of_containsA (by simpa using hcont)
      have hlsm : lsm = [] := by
        rw [getD, hnone] at hls
        injection hls.symm
      refine ⟨insertA ctx "_loop_states" (.obj []),
        by simp [Bool.not_eq_true] at hcont; simp [hcont], ?_, ?_⟩
      · rw [containsA_insertA_ne _ _ _ _ (by decide)]
        exact hc.1
      · rw [getA_insertA_self, hlsm]
  have hbind : ∀ ctxb item, containsA ctxb "body" = false →
      ∃ ctx1, (if pyTruthy item_var then
          match item_var with
          | Dyn.str v => Except.ok (insertA ctxb v item)
          | _ => Except.error "ModelError: non-string loop variable"
        else .ok ctxb) = .ok ctx1 ∧ containsA ctx1 "body" = false := by
    intro ctxb item hb
    rcases hvar2 with ⟨v, hiv, hv1, hv2⟩ | hfalsy
    · subst hiv
      by_cases hve : v = ""
      · exact ⟨ctxb, by simp [pyTruthy, hve], hb⟩
      · exact ⟨insertA ctxb v item, by simp [pyTruthy, hve],
          by rw [containsA_insertA_ne _ _ _ _ hv2]; exact hb⟩
    · exact ⟨ctxb, by simp [hfalsy], hb⟩
  have hover : (pyTruthy item_var && (match item_var with
      | Dyn.str v => decide (v = "_loop_states")
      | _ => false)) = false := by
    rcases hvar2 with ⟨v, hiv, hv1, hv2⟩ | hfalsy
    · subst hiv
      simp [pyTruthy, hv1]
    · simp [hfalsy]
  have hsafe2 : ∀ ctx1 j, containsA ctx1 "body" = false → (0 : Int) ≤ j →
      ctxSafe (insertA ctx1 "_loop_states"
        (.obj (insertA lsm node_id (.obj [("index", .int j)])))) := by
    intro ctx1 j hb hj
    exact ⟨by rw [containsA_insertA_ne _ _ _ _ (by decide)]; exact hb,
           Or.inr ⟨_, getA_insertA_self _ _ _, lsWellFormed_insertA hwf hj⟩⟩
  simp only [loopStatePart, hls, hctx0]
  rcases hstate : getA lsm node_id with _ | v
  · by_cases hlt : (0 : Int) < (coll.length : Int)
    · obtain ⟨item, hitem⟩ := pyListGet_ok coll 0 (by omega) hlt
      obtain ⟨ctx1, hb1, hbody1⟩ := hbind ctx0 item hbody0
      simp only [hstate, hlt, if_true, hitem, hb1, hover]
      simp
      exact ⟨.loop "do", _, ⟨rfl, rfl⟩, hsafe2 ctx1 1 hbody1 (by omega)⟩
    · have hlt2 : ¬((0 : Nat) < coll.length) := by omega
      simp only [hstate]
      simp [hlt, hlt2]
      exact ⟨.loop "done", _, ⟨rfl, rfl⟩, hsafe2 ctx0 0 hbody0 (by omega)⟩
  · obtain ⟨k, hv, hk⟩ := hwf _ (mem_of_getA hstate)
    simp only at hv
    subst hv
    by_cases hlt : k < (coll.length : Int)
    · obtain ⟨item, hitem⟩ := pyListGet_ok coll k hk hlt
      obtain ⟨ctx1, hb1, hbody1⟩ := hbind ctx0 item hbody0
      simp only [hstate, getA, hlt, if_true, hitem, hb1, hover]
      simp
      exact ⟨.loop "do", _, ⟨rfl, rfl⟩, hsafe2 ctx1 (k + 1) hbody1 (by omega)⟩
    · simp only [hstate, getA]
      simp [hlt]
      exact ⟨.loop "done", _, ⟨rfl, rfl⟩, hsafe2 ctx0 0 hbody0 (by omega)⟩

theorem exec_loop_safe (n : Node) (st : St) (ht : n.type = "loop")
    (hn : writeNameOk (getD n.data "variable" (.str "item")) = true)
    (hc : ctxSafe st.context) :
    ∃ out st2, execute_node n st = (.ok out, st2) ∧ ctxSafe st2.context := by
  simp only [execute_node, ht]
  simp
  exact loopStatePart_safe _ _ _ _ _ hn hc

theorem exec_interface_safe (n : Node) (st : St) (ht : n.type = "interface")
    (hn : (match getD n.data "fields" (.arr []) with
           | Dyn.arr l => l.all fieldOkD
           | _ => false) = true)
    (hc : ctxSafe st.context) :
    ∃ out st2, execute_node n st = (.ok out, st2) ∧ ctxSafe st2.context := by
  have hbody : getD st.context "body" (.obj []) = .obj [] := getD_of_containsA_false hc.1
  cases hfl : getD n.data "fields" (.arr [])
  case arr l =>
    rw [hfl] at hn
    have hn2 : l.all fieldOkD = true := hn
    obtain ⟨⟨mi, inv⟩, hmi⟩ := checkFields_ok [] l [] [] hn2
    cases hcond : (!List.isEmpty mi || !List.isEmpty inv) with
    | true =>
      simp only [execute_node, ht, hfl]
      simp [hbody, hmi, hcond]
      exact ⟨.response _, _, ⟨rfl, rfl⟩, hc⟩
    | false =>
      simp only [execute_node, ht, hfl]
      simp [hbody, hmi, hcond]
      exact ⟨.none, _, ⟨rfl, rfl⟩, hc⟩
  all_goals (rw [hfl] at hn; simp at hn)

/-- Dispatcher: a nodeSafe node in a ctxSafe context executes without an
uncaught exception and preserves the context invariant. -/
theorem execute_node_safe (n : Node) (st : St) (hn : nodeSafe n = true)
    (hc : ctxSafe st.context) :
    ∃ out st2, execute_node n st = (.ok out, st2) ∧ ctxSafe st2.context := by
  by_cases t1 : n.type = "api"
  · exact exec_api_safe n st t1 hc
  by_cases t2 : n.type = "variable"
  · exact exec_variable_safe n st t2 (by simpa [nodeSafe, t1, t2] using hn) hc
  by_cases t3 : n.type = "logic"
  · exact exec_logic_safe n st t3 (by simpa [nodeSafe, t1, t2, t3] using hn) hc
  by_cases t4 : n.type = "math"
  · exact exec_math_safe n st t4 (by simpa [nodeSafe, t1, t2, t3, t4] using hn) hc
  by_cases t5 : n.type = "data_op"
  · exact exec_data_op_safe n st t5 (by simpa [nodeSafe, t1, t2, t3, t4, t5] using hn) hc
  by_cases t6 : n.type = "interface"
  · exact exec_interface_safe n st t6 (by simpa [nodeSafe, t1, t2, t3, t4, t5, t6] using hn) hc
  by_cases t7 : n.type = "loop"
  · exact exec_loop_safe n st t7 (by simpa [nodeSafe, t1, t2, t3, t4, t5, t6, t7] using hn) hc
  by_cases t8 : n.type = "function"
  · exact exec_function_safe n st t8 hc
  by_cases t9 : n.type = "response"
  · exact exec_response_safe n st t9
      (by simpa [nodeSafe, t1, t2, t3, t4, t5, t6, t7, t8, t9] using hn) hc
  exact exec_other_safe n st t1 t2 t3 t4 t5 t6 t7 t8 t9 hc

/-- Variable-initialisation pass: with safe variable nodes it never
raises and preserves the context invariant. -/
theorem initVars_safe (l : List (String × Node)) (st : St)
    (hl : ∀ p, p ∈ l → p.2.type = "variable" → nodeSafe p.2 = true)
    (hc : ctxSafe st.context) :
    ∃ st2, initVars l st = (.ok (), st2) ∧ ctxSafe st2.context := by
  induction l generalizing st with
  | nil => exact ⟨st, rfl, hc⟩
  | cons p rest ih =>
    obtain ⟨k, n⟩ := p
    by_cases ht : n.type = "variable"
    · obtain ⟨out, st2, heq, hc2⟩ := execute_node_safe n st (hl (k, n) (by simp) ht) hc
      obtain ⟨st3, h3, hc3⟩ := ih st2 (fun q hq hqt => hl q (List.mem_cons_of_mem _ hq) hqt) hc2
      exact ⟨st3, by simp [initVars, ht, heq, h3], hc3⟩
    · obtain ⟨st3, h3, hc3⟩ := ih st (fun q hq hqt => hl q (List.mem_cons_of_mem _ hq) hqt) hc
      exact ⟨st3, by simp [initVars, ht, h3], hc3⟩

theorem mem_insertNodeA {m : List (String × Node)} {k : String} {v : Node}
    {p : String × Node} (h : p ∈ insertNodeA m k v) : p = (k, v) ∨ p ∈ m := by
  induction m with
  | nil => simp [insertNodeA] at h; simp [h]
  | cons q rest ih =>
    obtain ⟨k2, w⟩ := q
    by_cases h2 : k2 = k
    · subst h2
      simp [insertNodeA] at h
      rcases h with h | h
      · exact Or.inl (by simp [h])
      · exact Or.inr (by simp [h])
    · simp [insertNodeA, h2] at h
      rcases h with h | h
      · exact Or.inr (by simp [h])
      · rcases ih h with h3 | h3
        · exact Or.inl h3
        · exact Or.inr (by simp [h3])

theorem nodesMapAux_mem {l : List Node} :
    ∀ {acc : List (String × Node)} {p : String × Node},
      p ∈ nodesMapAux l acc → p.2 ∈ l ∨ p ∈ acc := by
  induction l with
  | nil => intro acc p h; exact Or.inr h
  | cons n rest ih =>
    intro acc p h
    rcases ih h with h2 | h2
    · exact Or.inl (by simp [h2])
    · rcases mem_insertNodeA h2 with h3 | h3
      · exact Or.inl (by simp [h3])
      · exact Or.inr h3

theorem mem_nodesMap {w : Workflow} {p : String × Node} (h : p ∈ nodesMap w) :
    p.2 ∈ w.nodes := by
  rcases nodesMapAux_mem h with h2 | h2
  · exact h2
  · simp at h2

theorem findStart_none {m : List (String × Node)}
    (h : ∀ p, p ∈ m → p.2.type ≠ "api") : findStart m = none := by
  induction m with
  | nil => rfl
  | cons p rest ih =>
    obtain ⟨k, n⟩ := p
    have hn := h (k, n) (by simp)
    simp at hn
    simp [findStart, hn]
    exact ih (fun q hq => h q (by simp [hq]))

/-- Claim C9: with no api node, run still executes every variable node
first (the returned state is exactly the variable-initialisation state,
context mutations and log entries included) and then returns the bare
structural-failure dict, which carries neither a status field nor a
logs field.  The side condition that variable names be strings is a
model boundary (Python would store under non-string keys). -/
theorem claim_C9_no_entry_after_var_init (w : Workflow) (input : List (String × Dyn))
    (hapi : ∀ n, n ∈ w.nodes → n.type ≠ "api")
    (hvars : ∀ n, n ∈ w.nodes → n.type = "variable" →
      writeNameOk (getD n.data "name" .null) = true) :
    ∃ st, run w input = (.ok [("error", .str "No API Entry Point found")], st) ∧
      initVars (nodesMap w) freshState = (.ok (), st) ∧
      containsA [("error", Dyn.str "No API Entry Point found")] "status" = false ∧
      containsA [("error", Dyn.str "No API Entry Point found")] "logs" = false := by
  have hsafe : ∀ p, p ∈ nodesMap w → p.2.type = "variable" → nodeSafe p.2 = true := by
    intro p hp ht
    simp [nodeSafe, ht]
    exact hvars p.2 (mem_nodesMap hp) ht
  obtain ⟨st2, hinit, -⟩ := initVars_safe (nodesMap w) freshState hsafe ⟨rfl, Or.inl rfl⟩
  have hfind : findStart (nodesMap w) = none :=
    findStart_none (fun p hp => hapi p.2 (mem_nodesMap hp))
  exact ⟨st2, by simp [run, hinit, hfind], hinit, rfl, rfl⟩

theorem claim_C9_witness :
    (run c9g minimalInput).fst = .ok [("error", Dyn.str "No API Entry Point found")] := by
  obtain ⟨st, h1, -, -, -⟩ := claim_C9_no_entry_after_var_init c9g minimalInput
    (by intro n hn; simp [c9g] at hn; subst hn; decide)
    (by intro n hn ht; simp [c9g] at hn; subst hn; decide)
  rw [h1]

/-- Every .ret dict a wave produces is either the response-success dict
built from the state at return (status, response, logs, context — in
that order) or the caught-failure error dict. -/
theorem runWave_ret_shape (nm : List (String × Node))
    (adj : List (String × List (String × Option String))) :
    ∀ (pending next : List String) (st : St) (r : List (String × Dyn)) (st2 : St),
      runWave nm adj pending next st = (.ret r, st2) →
      (∃ p, r = [("status", Dyn.str "success"), ("response", p),
                 ("logs", .arr (st2.log.map .str)), ("context", .obj st2.context)]) ∨
      (∃ e, r = [("status", Dyn.str "error"), ("error", Dyn.str e),
                 ("logs", .arr (st2.log.map .str))]) := by
  intro pending
  induction pending with
  | nil =>
    intro next st r st2 h
    simp [runWave] at h
  | cons id rest ih =>
    intro next st r st2 h
    simp only [runWave] at h
    cases hg : getNode nm id with
    | none => rw [hg] at h; simp at h
    | some node =>
      rw [hg] at h
      dsimp only at h
      rcases hex : execute_node node
          ⟨st.context, st.log ++ ["Executing Node: " ++ node.type ++ " (" ++ id ++ ")"]⟩
        with ⟨er, stx⟩
      rw [hex] at h
      cases er with
      | error e =>
        simp at h
        exact Or.inr ⟨e, by rw [← h.1, ← h.2]; simp⟩
      | ok out =>
        cases out with
        | response d =>
          simp at h
          exact Or.inl ⟨d, by rw [← h.1, ← h.2]⟩
        | none => exact ih _ _ _ _ h
        | logic b => exact ih _ _ _ _ h
        | loop s => exact ih _ _ _ _ h

/-- Every .ok result of the wave loop is a .ret dict of the shapes above
or the fall-through dict built from the final state. -/
theorem runLoop_ok_shape (nm : List (String × Node))
    (adj : List (String × List (String × Option String))) :
    ∀ (fuel : Nat) (wave : List String) (st : St) (r : List (String × Dyn)) (st2 : St),
      runLoop nm adj fuel wave st = (.ok r, st2) →
      (∃ p, r = [("status", Dyn.str "success"), ("response", p),
                 ("logs", .arr (st2.log.map .str)), ("context", .obj st2.context)]) ∨
      (∃ e, r = [("status", Dyn.str "error"), ("error", Dyn.str e),
                 ("logs", .arr (st2.log.map .str))]) ∨
      r = fallResult st2 := by
  intro fuel
  induction fuel with
  | zero =>
    intro wave st r st2 h
    simp [runLoop] at h
    exact Or.inr (Or.inr (by simp [← h.1, h.2]))
  | succ fuel ih =>
    intro wave st r st2 h
    cases wave with
    | nil =>
      simp [runLoop] at h
      exact Or.inr (Or.inr (by simp [← h.1, h.2]))
    | cons w ws =>
      simp only [runLoop] at h
      rcases hw : runWave nm adj (w :: ws) [] st with ⟨wres, stx⟩
      rw [hw] at h
      cases wres with
      | ret rr =>
        simp at h
        rcases runWave_ret_shape nm adj _ _ _ _ _ hw with ⟨p, hp⟩ | ⟨e, he⟩
        · exact Or.inl ⟨p, by rw [← h.1, hp, h.2]⟩
        · exact Or.inr (Or.inl ⟨e, by rw [← h.1, he, h.2]⟩)
      | exc e => simp at h
      | cont next => exact ih _ _ _ _ h

/-- Claim C2 amended: a run that terminates through a response outcome
returns immediately the success dict carrying the payload, the log and
— contrary to the claim — also the context: the code includes the
context field in the response-termination result as well.  The shape is
exact: status success, the payload, the final log, the final context. -/
theorem claim_C2_response_result_shape (w : Workflow) (input : List (String × Dyn))
    (r : List (String × Dyn)) (st2 : St)
    (hrun : run w input = (.ok r, st2))
    (hresp : containsA r "response" = true) :
    r = [("status", Dyn.str "success"), ("response", getD r "response" Dyn.null),
         ("logs", .arr (st2.log.map .str)), ("context", .obj st2.context)] ∧
    getA r "status" = some (Dyn.str "success") ∧
    getA r "context" = some (.obj st2.context) := by
  simp only [run] at hrun
  rcases hi : initVars (nodesMap w) freshState with ⟨ir, ist⟩
  rw [hi] at hrun
  cases ir with
  | error e => simp at hrun
  | ok u =>
    cases hf : findStart (nodesMap w) with
    | none =>
      rw [hf] at hrun
      simp at hrun
      rw [← hrun.1] at hresp
      simp [containsA] at hresp
    | some start =>
      rw [hf] at hrun
      rcases runLoop_ok_shape _ _ _ _ _ _ _ hrun with ⟨p, hp⟩ | ⟨e, he⟩ | hfall
      · subst hp
        exact ⟨by simp [getD, getA], by simp [getA], by simp [getA]⟩
      · subst he
        simp [containsA] at hresp
      · subst hfall
        simp [fallResult, containsA] at hresp

/-- Claim C2 counterexample: a concrete run terminating through the
response node returns a dict containing BOTH the response field and the
context field, refuting the claim that the context is present only in
non-response termination results. -/
theorem claim_C2_counterexample :
    (match (run c2g minimalInput).fst with
     | .ok r => containsA r "response" && containsA r "context"
     | .error _ => false) = true := rfl

theorem claim_C2_witness :
    run c2g minimalInput = (.ok c2R, c2S) ∧ containsA c2R "response" = true ∧
    c2R = [("status", Dyn.str "success"), ("response", getD c2R "response" Dyn.null),
           ("logs", .arr (c2S.log.map .str)), ("context", .obj c2S.context)] :=
  ⟨rfl, rfl, (claim_C2_response_result_shape c2g minimalInput c2R c2S rfl rfl).1⟩

theorem addEdge_inv {Q : String × Option String → Prop}
    {m : List (String × List (String × Option String))} {key : String}
    {ed : String × Option String}
    (hm : ∀ s l, (s, l) ∈ m → ∀ x, x ∈ l → Q x) (hed : Q ed) :
    ∀ s l, (s, l) ∈ addEdge m key ed → ∀ x, x ∈ l → Q x := by
  induction m with
  | nil =>
    intro s l h x hx
    simp [addEdge] at h
    rw [h.2] at hx
    simp at hx
    rw [hx]
    exact hed
  | cons q rest ih =>
    obtain ⟨k2, l2⟩ := q
    intro s l h x hx
    by_cases h2 : k2 = key
    · subst h2
      simp [addEdge] at h
      rcases h with ⟨hs, hl⟩ | h
      · rw [hl] at hx
        rcases List.mem_append.1 hx with hx2 | hx2
        · exact hm k2 l2 (by simp) x hx2
        · simp at hx2
          rw [hx2]
          exact hed
      · exact hm s l (by simp [h]) x hx
    · simp [addEdge, h2] at h
      rcases h with ⟨hs, hl⟩ | h
      · exact hm s l (by simp [hs, hl]) x hx
      · exact ih (fun s2 l2b hmem => hm s2 l2b (by simp [hmem])) s l h x hx

theorem adjacency_inv (Q : String × Option String → Prop) :
    ∀ (el : List Edge) (acc : List (String × List (String × Option String))),
      (∀ s l, (s, l) ∈ acc → ∀ x, x ∈ l → Q x) →
      (∀ e, e ∈ el → Q (e.target, e.sourceHandle)) →
      ∀ s l, (s, l) ∈ adjacencyAux el acc → ∀ x, x ∈ l → Q x := by
  intro el
  induction el with
  | nil => intro acc hacc hel s l h x hx; exact hacc s l h x hx
  | cons e rest ih =>
    intro acc hacc hel s l h x hx
    exact ih (addEdge acc e.source (e.target, e.sourceHandle))
      (addEdge_inv hacc (hel e (by simp)))
      (fun e2 he2 => hel e2 (by simp [he2])) s l h x hx

theorem getAdj_mem {m : List (String × List (String × Option String))} {k : String}
    {l : List (String × Option String)} (h : getAdj m k = some l) : (k, l) ∈ m := by
  induction m with
  | nil => simp [getAdj] at h
  | cons p rest ih =>
    obtain ⟨k2, l2⟩ := p
    by_cases h2 : k2 = k
    · subst h2
      simp [getAdj] at h
      simp [h]
    · simp [getAdj, h2] at h
      simp [ih h]

theorem routeEdges_mem {t : String} {out : Outcome}
    {edges : List (String × Option String)} {tid : String}
    (h : tid ∈ routeEdges t out edges) : ∃ ed, ed ∈ edges ∧ tid = ed.1 := by
  simp only [routeEdges, List.mem_filterMap] at h
  obtain ⟨ed, hed, hfn⟩ := h
  refine ⟨ed, hed, ?_⟩
  revert hfn
  by_cases h1 : t = "logic"
  · rw [if_pos h1]
    cases out with
    | logic b =>
      intro hfn
      repeat' split at hfn
      all_goals simp_all
    | none => intro hfn; simp at hfn
    | loop r => intro hfn; simp at hfn
    | response d => intro hfn; simp at hfn
  · rw [if_neg h1]
    by_cases h2 : t = "loop"
    · rw [if_pos h2]
      cases out with
      | loop r =>
        intro hfn
        repeat' split at hfn
        all_goals simp_all
      | none => intro hfn; simp at hfn
      | logic b => intro hfn; simp at hfn
      | response d => intro hfn; simp at hfn
    · rw [if_neg h2]
      intro hfn
      exact (Option.some.inj hfn).symm

theorem dedupGo_subset : ∀ (seen l : List String) (x : String),
    x ∈ dedupGo seen l → x ∈ l := by
  intro seen l
  induction l generalizing seen with
  | nil => intro x h; simp [dedupGo] at h
  | cons y ys ih =>
    intro x h
    simp only [dedupGo] at h
    by_cases h2 : seen.contains y = true
    · rw [if_pos h2] at h
      exact List.mem_cons_of_mem _ (ih seen x h)
    · rw [if_neg h2] at h
      rcases List.mem_cons.1 h with h | h
      · simp [h]
      · exact List.mem_cons_of_mem _ (ih (y :: seen) x h)

theorem dedup_subset {l : List String} {x : String} (h : x ∈ dedup l) : x ∈ l :=
  dedupGo_subset [] l x h

theorem insertNodeA_append {m : List (String × Node)} {k : String} {v : Node}
    (h : ∀ p, p ∈ m → p.1 ≠ k) : insertNodeA m k v = m ++ [(k, v)] := by
  induction m with
  | nil => rfl
  | cons q rest ih =>
    obtain ⟨k2, w⟩ := q
    have hk2 : k2 ≠ k := h (k2, w) (by simp)
    simp [insertNodeA, hk2]
    exact ih (fun p hp => h p (by simp [hp]))

theorem nodesMapAux_eq_map : ∀ (l : List Node) (acc : List (String × Node)),
    (∀ n, n ∈ l → ∀ p, p ∈ acc → p.1 ≠ n.id) →
    (l.map (fun n => n.id)).Nodup →
    nodesMapAux l acc = acc ++ l.map (fun n => (n.id, n)) := by
  intro l
  induction l with
  | nil => intro acc h hnd; simp [nodesMapAux]
  | cons n rest ih =>
    intro acc h hnd
    simp only [nodesMapAux]
    rw [insertNodeA_append (fun p hp => h n (by simp) p hp)]
    simp at hnd
    rw [ih (acc ++ [(n.id, n)]) ?_ hnd.2]
    · simp
    · intro n2 hn2 p hp
      rcases List.mem_append.1 hp with hp2 | hp2
      · exact h n2 (by simp [hn2]) p hp2
      · simp at hp2
        rw [hp2]
        intro hcon
        exact hnd.1 n2 hn2 (by simpa using hcon.symm)

theorem nodesMap_eq_map (w : Workflow) (hnd : (w.nodes.map (fun n => n.id)).Nodup) :
    nodesMap w = w.nodes.map (fun n => (n.id, n)) := by
  rw [nodesMap, nodesMapAux_eq_map w.nodes [] (by simp) hnd]
  simp

theorem getNode_map_mem : ∀ (l : List Node) (id : String),
    id ∈ l.map (fun n => n.id) →
    ∃ n, getNode (l.map fun n => (n.id, n)) id = some n ∧ n ∈ l := by
  intro l
  induction l with
  | nil => intro id h; simp at h
  | cons m rest ih =>
    intro id h
    by_cases h2 : m.id = id
    · exact ⟨m, by simp [getNode, h2], by simp⟩
    · simp only [List.map_cons, List.mem_cons] at h
      rcases h with h | h
      · exact absurd h.symm h2
      · obtain ⟨n, hn, hmem⟩ := ih id h
        exact ⟨n, by simp [getNode, h2, hn], by simp [hmem]⟩

theorem findStart_map_api : ∀ (l : List Node),
    (∃ n, n ∈ l ∧ n.type = "api") →
    ∃ n, findStart (l.map fun n => (n.id, n)) = some n ∧ n ∈ l ∧ n.type = "api" := by
  intro l
  induction l with
  | nil => intro ⟨n, hn, _⟩; simp at hn
  | cons m rest ih =>
    intro ⟨n, hn, hapi⟩
    by_cases h2 : m.type = "api"
    · exact ⟨m, by simp [findStart, h2], by simp, h2⟩
    · have hn2 : n ∈ rest := by
        rcases List.mem_cons.1 hn with h | h
        · exact absurd (h ▸ hapi) h2
        · exact h
      obtain ⟨n3, hf, hmem, ht⟩ := ih ⟨n, hn2, hapi⟩
      exact ⟨n3, by simp [findStart, h2, hf], by simp [hmem], ht⟩

/-- One wave over a safe graph: never an uncaught exception, every
early return is a success dict, and the next layer stays inside the
graph with the context invariant preserved. -/
theorem runWave_safe (w : Workflow) (hg : graphSafe w) :
    ∀ (pending next : List String) (st : St),
      (∀ id, id ∈ pending → id ∈ w.nodes.map (fun n => n.id)) →
      (∀ id, id ∈ next → id ∈ w.nodes.map (fun n => n.id)) →
      ctxSafe st.context →
      (match runWave (nodesMap w) (adjacency w) pending next st with
       | (.cont next2, st2) =>
         (∀ id, id ∈ next2 → id ∈ w.nodes.map (fun n => n.id)) ∧ ctxSafe st2.context
       | (.ret r, _) => getA r "status" = some (Dyn.str "success")
       | (.exc _, _) => False) := by
  intro pending
  induction pending with
  | nil =>
    intro next st hp hn hc
    simp only [runWave]
    exact ⟨hn, hc⟩
  | cons id rest ih =>
    intro next st hp hn hc
    obtain ⟨node, hgn0, hmem⟩ := getNode_map_mem w.nodes id (hp id (by simp))
    have hgn : getNode (nodesMap w) id = some node := by
      rw [nodesMap_eq_map w hg.1]
      exact hgn0
    obtain ⟨out, st2, hex, hc2⟩ := execute_node_safe node
      ⟨st.context, st.log ++ ["Executing Node: " ++ node.type ++ " (" ++ id ++ ")"]⟩
      (hg.2.2.2 node hmem) hc
    have hnext2 : ∀ tid, tid ∈ (next ++ (match getAdj (adjacency w) id with
        | some edges => routeEdges node.type out edges
        | none => [])) → tid ∈ w.nodes.map (fun n => n.id) := by
      intro tid htid
      rcases List.mem_append.1 htid with h | h
      · exact hn tid h
      · cases hadj : getAdj (adjacency w) id with
        | none => rw [hadj] at h; simp at h
        | some edges =>
          rw [hadj] at h
          obtain ⟨ed, hed, htid2⟩ := routeEdges_mem h
          have hQ : ∀ s l, (s, l) ∈ adjacency w → ∀ x, x ∈ l →
              x.1 ∈ w.nodes.map (fun n => n.id) := by
            apply adjacency_inv (fun x => x.1 ∈ w.nodes.map (fun n => n.id)) w.edges []
            · intro s l hl x hx
              simp at hl
            · intro e he
              exact hg.2.2.1 e he
          rw [htid2]
          exact hQ id edges (getAdj_mem hadj) ed hed
    simp only [runWave, hgn]
    rw [hex]
    cases out with
    | response d => simp [getA]
    | none => exact ih _ _ (fun i h => hp i (by simp [h])) hnext2 hc2
    | logic b => exact ih _ _ (fun i h => hp i (by simp [h])) hnext2 hc2
    | loop s => exact ih _ _ (fun i h => hp i (by simp [h])) hnext2 hc2

/-- The wave loop over a safe graph always returns a success dict. -/
theorem runLoop_safe (w : Workflow) (hg : graphSafe w) :
    ∀ (fuel : Nat) (wave : List String) (st : St),
      (∀ id, id ∈ wave → id ∈ w.nodes.map (fun n => n.id)) →
      ctxSafe st.context →
      ∃ r st2, runLoop (nodesMap w) (adjacency w) fuel wave st = (.ok r, st2) ∧
        getA r "status" = some (Dyn.str "success") := by
  intro fuel
  induction fuel with
  | zero =>
    intro wave st hw hc
    exact ⟨fallResult st, st, rfl, by simp [fallResult, getA]⟩
  | succ fuel ih =>
    intro wave st hw hc
    cases wave with
    | nil => exact ⟨fallResult st, st, rfl, by simp [fallResult, getA]⟩
    | cons x xs =>
      have hws := runWave_safe w hg (x :: xs) [] st hw (by simp) hc
      rcases hrw : runWave (nodesMap w) (adjacency w) (x :: xs) [] st with ⟨wres, st2⟩
      rw [hrw] at hws
      cases wres with
      | ret r => exact ⟨r, st2, by simp [runLoop, hrw], hws⟩
      | exc e => exact absurd hws (by simp)
      | cont next =>
        obtain ⟨hnext, hc2⟩ := hws
        obtain ⟨r, st3, hrl, hst⟩ := ih (dedup next) st2
          (fun i h => hnext i (dedup_subset h)) hc2
        exact ⟨r, st3, by simp [runLoop, hrw, hrl], hst⟩

/-- Claim C1 amended: for every workflow graph with exactly one api
node, distinct node ids, every edge target naming an existing node, and
every node configuration safe in the sense of nodeSafe, run with the
minimal input terminates (run is total, its wave loop carrying the
1000-wave fuel of the source) and returns a success-status result.  The
unamended claim fails: a dangling edge target raises an uncaught
KeyError (claim_C1_counterexample), and a raising node yields an
error-status result. -/
theorem claim_C1_safe_graphs_succeed (w : Workflow) (hg : graphSafe w) :
    ∃ r st2, run w minimalInput = (.ok r, st2) ∧
      getA r "status" = some (Dyn.str "success") := by
  have hsafe0 : ∀ p, p ∈ nodesMap w → p.2.type = "variable" → nodeSafe p.2 = true :=
    fun p hp _ => hg.2.2.2 p.2 (mem_nodesMap hp)
  obtain ⟨st1, hinit, hc1⟩ := initVars_safe (nodesMap w) freshState hsafe0 ⟨rfl, Or.inl rfl⟩
  have hex : ∃ n, n ∈ w.nodes ∧ n.type = "api" := by
    have hpos : 0 < w.nodes.countP (fun n => n.type == "api") := by
      rw [hg.2.1]
      omega
    obtain ⟨n, hn, hp⟩ := List.countP_pos_iff.1 hpos
    exact ⟨n, hn, by simpa using hp⟩
  obtain ⟨start, hfs0, hsmem, hstype⟩ := findStart_map_api w.nodes hex
  have hfs : findStart (nodesMap w) = some start := by
    rw [nodesMap_eq_map w hg.1]
    exact hfs0
  have hc2 : ctxSafe (insertA st1.context "request" (.obj minimalInput)) :=
    ctxSafe_insertA hc1 (by decide) (by decide)
  obtain ⟨r, st3, hrl, hst⟩ := runLoop_safe w hg 1000 [start.id]
    ⟨insertA st1.context "request" (.obj minimalInput),
     st1.log ++ ["Started execution at "
       ++ pyStr (getD start.data "label" (.str "API Entry"))]⟩
    (by
      intro i h
      simp at h
      rw [h]
      exact List.mem_map_of_mem _ hsmem)
    hc2
  refine ⟨r, st3, ?_, hst⟩
  simp only [run]
  rw [hinit]
  dsimp only
  rw [hfs]
  dsimp only
  exact hrl

/-- Claim C1 counterexample: the graph with one api node and an edge to
a target that names no node raises an uncaught KeyError instead of
returning a success result — line 80 of run reads self.nodes[node_id]
outside the try block. -/
theorem claim_C1_counterexample :
    (run c1g minimalInput).fst = .error "KeyError: \x27ghost\x27" := rfl

theorem claim_C1_witness :
    (∃ r st2, run c1wg minimalInput = (.ok r, st2) ∧
      getA r "status" = some (Dyn.str "success")) ∧
    (match (run c1wg minimalInput).fst with
     | .ok r => getA r "status" = some (Dyn.str "success")
     | .error _ => False) :=
  ⟨claim_C1_safe_graphs_succeed c1wg
     ⟨by decide, by decide, by intro e he; simp [c1wg] at he, by
       intro n hn
       simp [c1wg] at hn
       subst hn
       decide⟩,
   rfl⟩

/-- One do-step of a loop node over the literal collection [1,2,3]:
with a safe nonempty variable name and index k in bounds, the node
binds the k-th element, persists index k+1 and reports do. -/
theorem loop3_do (i v : String) (ctx : List (String × Dyn)) (log : List String)
    (lsm : List (String × Dyn)) (k : Int) (item : Dyn)
    (hv : v ≠ "") (hv2 : v ≠ "_loop_states")
    (hls : getD ctx "_loop_states" (.obj []) = .obj lsm)
    (hstate : (getA lsm i = none ∧ k = 0) ∨ getA lsm i = some (.obj [("index", .int k)]))
    (hk : k < 3)
    (hitem : pyListGet [.int 1, .int 2, .int 3] k = .ok item) :
    ∃ st2, loopStatePart i (.str v) [.int 1, .int 2, .int 3] ctx log =
        (.ok (.loop "do"), st2) ∧
      getA st2.context v = some item ∧
      getD st2.context "_loop_states" (.obj []) =
        .obj (insertA lsm i (.obj [("index", .int (k + 1))])) := by
  have hklen : k < (([Dyn.int 1, Dyn.int 2, Dyn.int 3].length : Nat) : Int) := by
    simpa using hk
  have hpt : pyTruthy (Dyn.str v) = true := by simp [pyTruthy, hv]
  have hover : v = "_loop_states" ↔ False := by simp [hv2]
  rcases hstate with ⟨hnone, hk0⟩ | hsome
  · subst hk0
    simp only [loopStatePart, hls]
    dsimp only
    rw [hnone]
    dsimp only
    rw [if_pos hklen, hitem]
    dsimp only
    simp only [hpt, Bool.true_and, decide_eq_true_eq, hover, eq_self_iff_true,
      if_true, if_false]
    refine ⟨_, rfl, ?_, ?_⟩
    · rw [getA_insertA_ne _ _ _ _ (fun h => hv2 h.symm), getA_insertA_self]
    · rw [getD, getA_insertA_self]
  · simp only [loopStatePart, hls]
    dsimp only
    rw [hsome]
    dsimp only
    rw [show getA [("index", Dyn.int k)] "index" = some (Dyn.int k) from rfl]
    dsimp only
    rw [if_pos hklen, hitem]
    dsimp only
    simp only [hpt, Bool.true_and, decide_eq_true_eq, hover, eq_self_iff_true,
      if_true, if_false]
    refine ⟨_, rfl, ?_, ?_⟩
    · rw [getA_insertA_ne _ _ _ _ (fun h => hv2 h.symm), getA_insertA_self]
    · rw [getD, getA_insertA_self]
      rfl

/-- The exhausted step of a loop node over [1,2,3]: with the index out
of bounds the node resets the stored index to 0 and reports done. -/
theorem loop3_done (i v : String) (ctx : List (String × Dyn)) (log : List String)
    (lsm : List (String × Dyn)) (k : Int)
    (hls : getD ctx "_loop_states" (.obj []) = .obj lsm)
    (hsome : getA lsm i = some (.obj [("index", .int k)]))
    (hk : ¬(k < 3)) :
    ∃ st2, loopStatePart i (.str v) [.int 1, .int 2, .int 3] ctx log =
        (.ok (.loop "done"), st2) ∧
      getD st2.context "_loop_states" (.obj []) =
        .obj (insertA lsm i (.obj [("index", .int 0)])) := by
  have hklen : ¬(k < (([Dyn.int 1, Dyn.int 2, Dyn.int 3].length : Nat) : Int)) := by
    simpa using hk
  simp only [loopStatePart, hls]
  dsimp only
  rw [hsome]
  dsimp only
  rw [show getA [("index", Dyn.int k)] "index" = some (Dyn.int k) from rfl]
  dsimp only
  rw [if_neg hklen]
  exact ⟨_, rfl, by rw [getD, getA_insertA_self]; rfl⟩

/-- Claim C4: a loop node over the literal collection [1,2,3], executed
four successive times within one run (fresh loop state for this node),
reports do three times binding the configured variable to 1, 2, 3 in
order, then done once, after which the per-node index stored in the
reserved loop-state sub-mapping is 0. -/
theorem claim_C4_loop_over_123 (i v : String) (ctx0 : List (String × Dyn))
    (log0 : List String) (lsm0 : List (String × Dyn))
    (hv : v ≠ "") (hv2 : v ≠ "_loop_states")
    (hls : getD ctx0 "_loop_states" (.obj []) = .obj lsm0)
    (hfresh : getA lsm0 i = none) :
    ∃ st1 st2 st3 st4,
      execute_node (loopNode3 i v) ⟨ctx0, log0⟩ = (.ok (.loop "do"), st1) ∧
      getA st1.context v = some (.int 1) ∧
      execute_node (loopNode3 i v) st1 = (.ok (.loop "do"), st2) ∧
      getA st2.context v = some (.int 2) ∧
      execute_node (loopNode3 i v) st2 = (.ok (.loop "do"), st3) ∧
      getA st3.context v = some (.int 3) ∧
      execute_node (loopNode3 i v) st3 = (.ok (.loop "done"), st4) ∧
      (∃ lsm4, getD st4.context "_loop_states" (.obj []) = .obj lsm4 ∧
        getA lsm4 i = some (.obj [("index", .int 0)])) := by
  have hred : ∀ st : St, execute_node (loopNode3 i v) st =
      loopStatePart i (.str v) [.int 1, .int 2, .int 3] st.context st.log :=
    fun st => rfl
  obtain ⟨s1, h1, hb1, hl1⟩ := loop3_do i v ctx0 log0 lsm0 0 (.int 1) hv hv2 hls
    (Or.inl ⟨hfresh, rfl⟩) (by omega) rfl
  obtain ⟨s2, h2, hb2, hl2⟩ := loop3_do i v s1.context s1.log _ (0 + 1) (.int 2) hv hv2 hl1
    (Or.inr (getA_insertA_self _ _ _)) (by omega) rfl
  obtain ⟨s3, h3, hb3, hl3⟩ := loop3_do i v s2.context s2.log _ (0 + 1 + 1) (.int 3) hv hv2 hl2
    (Or.inr (getA_insertA_self _ _ _)) (by omega) rfl
  obtain ⟨s4, h4, hl4⟩ := loop3_done i v s3.context s3.log _ (0 + 1 + 1 + 1) hl3
    (getA_insertA_self _ _ _) (by omega)
  exact ⟨s1, s2, s3, s4,
    (hred ⟨ctx0, log0⟩).trans h1, hb1,
    (hred s1).trans h2, hb2,
    (hred s2).trans h3, hb3,
    (hred s3).trans h4,
    ⟨_, hl4, getA_insertA_self _ _ _⟩⟩

theorem claim_C4_witness :
    (∃ st1 st2 st3 st4,
      execute_node (loopNode3 "l1" "item") ⟨[], []⟩ = (.ok (.loop "do"), st1) ∧
      getA st1.context "item" = some (.int 1) ∧
      execute_node (loopNode3 "l1" "item") st1 = (.ok (.loop "do"), st2) ∧
      getA st2.context "item" = some (.int 2) ∧
      execute_node (loopNode3 "l1" "item") st2 = (.ok (.loop "do"), st3) ∧
      getA st3.context "item" = some (.int 3) ∧
      execute_node (loopNode3 "l1" "item") st3 = (.ok (.loop "done"), st4) ∧
      (∃ lsm4, getD st4.context "_loop_states" (.obj []) = .obj lsm4 ∧
        getA lsm4 "l1" = some (.obj [("index", .int 0)]))) ∧
    getA ((execute_node (loopNode3 "l1" "item")
        ((execute_node (loopNode3 "l1" "item")
          ((execute_node (loopNode3 "l1" "item")
            ((execute_node (loopNode3 "l1" "item") ⟨[], []⟩).snd)).snd)).snd)).snd).context
      "_loop_states" = some (.obj [("l1", .obj [("index", .int 0)])]) :=
  ⟨claim_C4_loop_over_123 "l1" "item" [] [] [] (by decide) (by decide) rfl rfl, rfl⟩
